import Mathlib

/-!
Verification development for the Essence.io simulation core.

The JavaScript sources are shallowly embedded over the real numbers:
JS numbers become `ℝ`, `Math.hypot` becomes `√(x² + y²)`, `Math.pow`
becomes `Real.rpow`, `Math.atan2 y x` becomes `Complex.arg ⟨x, y⟩`.
JS `Map`s (insertion-ordered, keyed by entity id) become association
lists.  Entity ids `"entity_<n>"` are represented by their numeric
suffix `n` (the constant string wrapper is injective and otherwise
inert).  `Math.random()` is modelled as an external entropy stream
`rng : ℕ → ℝ` read at an explicit cursor `rngIdx` carried in the world
state.  `Date.now()` timestamps attached to delta events are ambient
wall-clock I/O and are not represented; no claim refers to them.
-/

namespace Sim

noncomputable section

/-! ## Configuration (config/GameConfig.js) -/

def SERVER_TICK_RATE : ℝ := 60
def WORLD_W : ℝ := 2000
def WORLD_H : ℝ := 2000
def PLAYER_BASE_RADIUS : ℝ := 8
def PLAYER_ACCELERATION : ℝ := 300
def PLAYER_MAX_VELOCITY : ℝ := 250
def PLAYER_FRICTION : ℝ := 8 / 100
def PLAYER_MAX_HEALTH : ℝ := 100
def PLAYER_MAX_MANA : ℝ := 100
def ESSENCE_RADIUS_MULTIPLIER : ℝ := 3 / 10
def POSITION_UPDATE_THRESHOLD : ℝ := 5
def MIN_ESSENCE_COUNT : ℕ := 500
def ESSENCE_ATTRACTION_RANGE : ℝ := 200
def ESSENCE_ATTRACTION_FORCE : ℝ := 50
def NPC_RADIUS : ℝ := 6
def NPC_HEALTH : ℝ := 10
def NPC_SPEED : ℝ := 80

def ESSENCE_TYPES : List String := ["fire", "water", "earth", "air", "void", "light", "dark"]

/-- `GameConfig.ESSENCE_RADIUS[rarity] || 3`: rarity-keyed radius lookup
with fallback 3. -/
def essenceRadiusOf (rarity : String) : ℝ :=
  if rarity = "common" then 3
  else if rarity = "uncommon" then 4
  else if rarity = "rare" then 5
  else if rarity = "epic" then 6
  else if rarity = "legendary" then 8
  else 3

/-- `GameConfig.getRandomEssenceType`, with the `Math.random()` draw `r`
made explicit: `ESSENCE_TYPES[Math.floor(r * 7)]`. -/
def getRandomEssenceType (r : ℝ) : String :=
  ESSENCE_TYPES.getD (⌊r * 7⌋).toNat "undefined"

/-- `Essence.getRandomRarity`, with the `Math.random()` draw `r` explicit. -/
def getRandomRarity (r : ℝ) : String :=
  if r < 50 / 100 then "common"
  else if r < 80 / 100 then "uncommon"
  else if r < 95 / 100 then "rare"
  else if r < 99 / 100 then "epic"
  else "legendary"

/-! ## Geometry -/

structure Vec2 where
  x : ℝ
  y : ℝ

/-- `Math.hypot x y`. -/
def hypot (x y : ℝ) : ℝ := Real.sqrt (x ^ 2 + y ^ 2)

/-- `Math.atan2 y x` (the principal argument of the point `(x, y)`). -/
def atan2 (y x : ℝ) : ℝ := Complex.arg ⟨x, y⟩

structure Rect where
  x : ℝ
  y : ℝ
  width : ℝ
  height : ℝ

/-- `Quadtree.intersects(rect1, rect2)`: closed axis-aligned overlap test
(touching edges count as intersecting). -/
def rectIntersects (r1 r2 : Rect) : Prop :=
  ¬ (r2.x > r1.x + r1.width ∨ r2.x + r2.width < r1.x ∨
     r2.y > r1.y + r1.height ∨ r2.y + r2.height < r1.y)

instance (r1 r2 : Rect) : Decidable (rectIntersects r1 r2) := by
  unfold rectIntersects; infer_instance

/-- Rectangle containment, axis by axis. -/
def Rect.subRect (inner outer : Rect) : Prop :=
  outer.x ≤ inner.x ∧ inner.x + inner.width ≤ outer.x + outer.width ∧
  outer.y ≤ inner.y ∧ inner.y + inner.height ≤ outer.y + outer.height

/-! ## Insertion-ordered maps (JS `Map` as an association list) -/

/-- JS `Map.get`. -/
def listGet {V : Type _} : List (ℕ × V) → ℕ → Option V
  | [], _ => none
  | kv :: rest, k => if kv.1 = k then some kv.2 else listGet rest k

/-- JS `Map.set`: replace in place if the key is present, append otherwise. -/
def listSet {V : Type _} : List (ℕ × V) → ℕ → V → List (ℕ × V)
  | [], k, v => [(k, v)]
  | kv :: rest, k, v => if kv.1 = k then (k, v) :: rest else kv :: listSet rest k v

/-- Update the value stored at a key in place (used to model field mutation
through an object reference held in a `Map`). -/
def listUpdate {V : Type _} : List (ℕ × V) → ℕ → (V → V) → List (ℕ × V)
  | [], _, _ => []
  | kv :: rest, k, f => if kv.1 = k then (kv.1, f kv.2) :: rest else kv :: listUpdate rest k f

/-- JS `Map.delete`. -/
def listDelete {V : Type _} : List (ℕ × V) → ℕ → List (ℕ × V)
  | [], _ => []
  | kv :: rest, k => if kv.1 = k then rest else kv :: listDelete rest k

/-- The keys of an association list, in order. -/
def keysOf {V : Type _} (l : List (ℕ × V)) : List ℕ := l.map Prod.fst

/-- Pointwise lifting of a relation to `Option`. -/
def OptRel {α : Type _} (R : α → α → Prop) : Option α → Option α → Prop
  | none, none => True
  | some a, some b => R a b
  | _, _ => False

/-! ## SpatialIndex (utils/Quadtree.js)

A node is `leaf` when `divided` is false and `branch` (with the four
children NW, NE, SW, SE) when it is true.  `insert` is the JS recursion
made total with an explicit fuel argument; the JS recursion terminates
because every recursive call either descends the existing finite tree
or descends freshly subdivided children whose stored `depth` grows until
`depth >= maxDepth` forces local storage, so any fuel of at least
`size + (largest maxDepth field) + 1` is never exhausted. -/

inductive Quadtree where
  | leaf (bounds : Rect) (maxEntities maxDepth depth : ℕ) (entities : List (ℕ × Rect))
  | branch (bounds : Rect) (maxEntities maxDepth depth : ℕ) (entities : List (ℕ × Rect))
      (c1 c2 c3 c4 : Quadtree)

namespace Quadtree

def bounds : Quadtree → Rect
  | leaf b _ _ _ _ => b
  | branch b _ _ _ _ _ _ _ _ => b

def size : Quadtree → ℕ
  | leaf _ _ _ _ _ => 1
  | branch _ _ _ _ _ c1 c2 c3 c4 => 1 + c1.size + c2.size + c3.size + c4.size

def mdBound : Quadtree → ℕ
  | leaf _ _ md _ _ => md
  | branch _ _ md _ _ c1 c2 c3 c4 =>
      max md (max (max c1.mdBound c2.mdBound) (max c3.mdBound c4.mdBound))

/-- The `Quadtree` constructor: an undivided node with no entries. -/
def make (b : Rect) (me md : ℕ) : Quadtree := leaf b me md 0 []

/-- The four quadrant rectangles computed by `subdivide`, in child order
NW, NE, SW, SE. -/
def quadrants (b : Rect) : Rect × Rect × Rect × Rect :=
  let w := b.width / 2
  let h := b.height / 2
  (⟨b.x, b.y, w, h⟩, ⟨b.x + w, b.y, w, h⟩, ⟨b.x, b.y + h, w, h⟩, ⟨b.x + w, b.y + h, w, h⟩)

/-- `insert(id, bounds)` with explicit fuel (see the section comment). -/
def insertGo : ℕ → Quadtree → ℕ → Rect → Quadtree × Bool
  | 0, t, _, _ => (t, false)
  | Nat.succ fuel, leaf b me md d ents, id, bd =>
    if ¬ rectIntersects b bd then (leaf b me md d ents, false)
    else if ents.length < me ∨ md ≤ d then (leaf b me md d (listSet ents id bd), true)
    else
      let q := quadrants b
      let r1 := insertGo fuel (leaf q.1 me md (d + 1) []) id bd
      if r1.2 then (branch b me md d ents r1.1 (leaf q.2.1 me md (d + 1) [])
        (leaf q.2.2.1 me md (d + 1) []) (leaf q.2.2.2 me md (d + 1) []), true)
      else
        let r2 := insertGo fuel (leaf q.2.1 me md (d + 1) []) id bd
        if r2.2 then (branch b me md d ents r1.1 r2.1 (leaf q.2.2.1 me md (d + 1) [])
          (leaf q.2.2.2 me md (d + 1) []), true)
        else
          let r3 := insertGo fuel (leaf q.2.2.1 me md (d + 1) []) id bd
          if r3.2 then (branch b me md d ents r1.1 r2.1 r3.1
            (leaf q.2.2.2 me md (d + 1) []), true)
          else
            let r4 := insertGo fuel (leaf q.2.2.2 me md (d + 1) []) id bd
            (branch b me md d ents r1.1 r2.1 r3.1 r4.1, r4.2)
  | Nat.succ fuel, branch b me md d ents c1 c2 c3 c4, id, bd =>
    if ¬ rectIntersects b bd then (branch b me md d ents c1 c2 c3 c4, false)
    else if ents.length < me ∨ md ≤ d then
      (branch b me md d (listSet ents id bd) c1 c2 c3 c4, true)
    else
      let r1 := insertGo fuel c1 id bd
      if r1.2 then (branch b me md d ents r1.1 c2 c3 c4, true)
      else
        let r2 := insertGo fuel c2 id bd
        if r2.2 then (branch b me md d ents r1.1 r2.1 c3 c4, true)
        else
          let r3 := insertGo fuel c3 id bd
          if r3.2 then (branch b me md d ents r1.1 r2.1 r3.1 c4, true)
          else
            let r4 := insertGo fuel c4 id bd
            (branch b me md d ents r1.1 r2.1 r3.1 r4.1, r4.2)

def insert (t : Quadtree) (id : ℕ) (bd : Rect) : Quadtree × Bool :=
  insertGo (t.size + t.mdBound + 1) t id bd

/-- `search(searchBounds)`: collect the ids of every node whose region
intersects the query, pruning subtrees whose region does not. -/
def search : Quadtree → Rect → List ℕ
  | leaf b _ _ _ ents, q =>
    if rectIntersects b q then ents.map Prod.fst else []
  | branch b _ _ _ ents c1 c2 c3 c4, q =>
    if rectIntersects b q then
      ents.map Prod.fst ++ (c1.search q ++ (c2.search q ++ (c3.search q ++ c4.search q)))
    else []

/-- `clear()`: drop all entries and subdivision state, keeping the region. -/
def clear : Quadtree → Quadtree
  | leaf b me md d _ => leaf b me md d []
  | branch b me md d _ _ _ _ _ => leaf b me md d []

/-- All ids stored anywhere in the tree, in traversal order. -/
def storedIds : Quadtree → List ℕ
  | leaf _ _ _ _ ents => ents.map Prod.fst
  | branch _ _ _ _ ents c1 c2 c3 c4 =>
    ents.map Prod.fst ++ (c1.storedIds ++ (c2.storedIds ++ (c3.storedIds ++ c4.storedIds)))

/-- The spec's description of `search`: every stored id whose node's
region intersects the query, each node tested independently (no
pruning).  Compared against `search` in the C1 analysis. -/
def collectIntersecting : Quadtree → Rect → List ℕ
  | leaf b _ _ _ ents, q =>
    if rectIntersects b q then ents.map Prod.fst else []
  | branch b _ _ _ ents c1 c2 c3 c4, q =>
    (if rectIntersects b q then ents.map Prod.fst else []) ++
      (c1.collectIntersecting q ++ (c2.collectIntersecting q ++
        (c3.collectIntersecting q ++ c4.collectIntersecting q)))

/-- Structural well-formedness of trees the code actually builds: regions
have nonnegative extent and children tile their parent's quadrants. -/
def wf : Quadtree → Prop
  | leaf b _ _ _ _ => 0 ≤ b.width ∧ 0 ≤ b.height
  | branch b _ _ _ _ c1 c2 c3 c4 =>
    0 ≤ b.width ∧ 0 ≤ b.height ∧
    c1.bounds = (quadrants b).1 ∧ c2.bounds = (quadrants b).2.1 ∧
    c3.bounds = (quadrants b).2.2.1 ∧ c4.bounds = (quadrants b).2.2.2 ∧
    c1.wf ∧ c2.wf ∧ c3.wf ∧ c4.wf

end Quadtree

/-- The world rectangle the `GameWorld` constructor hands to its quadtree. -/
def worldRect : Rect := ⟨0, 0, WORLD_W, WORLD_H⟩

/-- A quadtree as fresh as the `GameWorld` constructor makes it, after a
given sequence of `insert` calls. -/
def buildIndex (inserts : List (ℕ × Rect)) : Quadtree :=
  inserts.foldl (fun t p => (t.insert p.1 p.2).1) (Quadtree.make worldRect 4 8)

/-! ## Entities (entities/Player.js, entities/Essence.js, entities/NPC.js) -/

structure Essence where
  id : ℕ
  position : Vec2
  velocity : Vec2
  etype : String
  rarity : String
  level : ℕ
  radius : ℝ

/-- The `Essence` constructor; `rarityDraw` is the `Math.random()` sample
behind `getRandomRarity`.  (`creationTime` is wall-clock I/O, omitted.) -/
def Essence.init (id : ℕ) (x y : ℝ) (etype : String) (rarityDraw : ℝ) : Essence :=
  let rar := getRandomRarity rarityDraw
  { id := id, position := ⟨x, y⟩, velocity := ⟨0, 0⟩, etype := etype,
    rarity := rar, level := 1, radius := essenceRadiusOf rar }

/-- `Essence.update(deltaTime)`: integrate, damp velocity by 0.95, clamp
the position into `[0, worldSize]`. -/
def Essence.update (dt : ℝ) (e : Essence) : Essence :=
  let px := e.position.x + e.velocity.x * dt
  let py := e.position.y + e.velocity.y * dt
  { e with
    position := ⟨max 0 (min WORLD_W px), max 0 (min WORLD_H py)⟩,
    velocity := ⟨e.velocity.x * (95 / 100), e.velocity.y * (95 / 100)⟩ }

def Essence.getBounds (e : Essence) : Rect :=
  ⟨e.position.x - e.radius, e.position.y - e.radius, e.radius * 2, e.radius * 2⟩

structure InputState where
  up : Bool
  down : Bool
  left : Bool
  right : Bool

structure Player where
  id : ℕ
  name : String
  clientId : String
  position : Vec2
  velocity : Vec2
  rotation : ℝ
  acceleration : ℝ
  maxVelocity : ℝ
  friction : ℝ
  baseRadius : ℝ
  radius : ℝ
  essences : List Essence
  health : ℝ
  mana : ℝ
  inputState : InputState
  lastSignificantPosition : Vec2

/-- The `Player` constructor.  (`lastPositionUpdateTime` is wall-clock
I/O and never read; omitted.) -/
def Player.init (id : ℕ) (name clientId : String) (x y : ℝ) : Player :=
  { id := id, name := name, clientId := clientId, position := ⟨x, y⟩,
    velocity := ⟨0, 0⟩, rotation := 0, acceleration := PLAYER_ACCELERATION,
    maxVelocity := PLAYER_MAX_VELOCITY, friction := PLAYER_FRICTION,
    baseRadius := PLAYER_BASE_RADIUS, radius := PLAYER_BASE_RADIUS,
    essences := [], health := PLAYER_MAX_HEALTH, mana := PLAYER_MAX_MANA,
    inputState := ⟨false, false, false, false⟩, lastSignificantPosition := ⟨x, y⟩ }

/-- `Player.updateVelocity(keys)`. -/
def Player.updateVelocity (keys : List String) (p : Player) : Player :=
  let ax : ℝ := (if "a" ∈ keys ∨ "ArrowLeft" ∈ keys then -p.acceleration else 0) +
    (if "d" ∈ keys ∨ "ArrowRight" ∈ keys then p.acceleration else 0)
  let ay : ℝ := (if "w" ∈ keys ∨ "ArrowUp" ∈ keys then -p.acceleration else 0) +
    (if "s" ∈ keys ∨ "ArrowDown" ∈ keys then p.acceleration else 0)
  let magnitude := hypot ax ay
  let ax := if magnitude > 0 then ax / magnitude * p.acceleration else ax
  let ay := if magnitude > 0 then ay / magnitude * p.acceleration else ay
  let vx := (p.velocity.x + ax / SERVER_TICK_RATE) * (1 - p.friction)
  let vy := (p.velocity.y + ay / SERVER_TICK_RATE) * (1 - p.friction)
  let velocityMagnitude := hypot vx vy
  let vx := if velocityMagnitude > p.maxVelocity then vx / velocityMagnitude * p.maxVelocity else vx
  let vy := if velocityMagnitude > p.maxVelocity then vy / velocityMagnitude * p.maxVelocity else vy
  let rot := if velocityMagnitude > 1 / 10 then atan2 vy vx else p.rotation
  { p with velocity := ⟨vx, vy⟩, rotation := rot }

/-- `Player.update(deltaTime)`: integrate, clamp into
`[radius, worldSize - radius]` (with the radius held *before* this tick's
recomputation), then recompute `radius` and `maxVelocity` from the
collected-essence count. -/
def Player.update (dt : ℝ) (p : Player) : Player :=
  let px := p.position.x + p.velocity.x * dt
  let py := p.position.y + p.velocity.y * dt
  let cx := max p.radius (min (WORLD_W - p.radius) px)
  let cy := max p.radius (min (WORLD_H - p.radius) py)
  let radius := p.baseRadius + (p.essences.length : ℝ) * ESSENCE_RADIUS_MULTIPLIER
  let sizePenalty := ((p.essences.length : ℝ) / 100) ^ (3 / 10 : ℝ)
  let maxVelocity := PLAYER_MAX_VELOCITY * (1 - sizePenalty * (1 / 2))
  { p with position := ⟨cx, cy⟩, radius := radius, maxVelocity := maxVelocity }

/-- `Player.addEssence(essence)`. -/
def Player.addEssence (e : Essence) (p : Player) : Player :=
  { p with essences := p.essences ++ [e] }

/-- `Player.hasMovedSignificantly()`: returns the flag and the player with
`lastSignificantPosition` reset when the flag is true. -/
def Player.hasMovedSignificantly (p : Player) : Bool × Player :=
  let dist := hypot (p.position.x - p.lastSignificantPosition.x)
    (p.position.y - p.lastSignificantPosition.y)
  if dist > POSITION_UPDATE_THRESHOLD then
    (true, { p with lastSignificantPosition := p.position })
  else (false, p)

def Player.getBounds (p : Player) : Rect :=
  ⟨p.position.x - p.radius, p.position.y - p.radius, p.radius * 2, p.radius * 2⟩

structure NPC where
  id : ℕ
  position : Vec2
  velocity : Vec2
  rotation : ℝ
  radius : ℝ
  health : ℝ
  maxHealth : ℝ
  speed : ℝ
  aiTimer : ℝ
  aiUpdateInterval : ℝ
  targetVelocity : Vec2

/-- The `NPC` constructor; `intervalDraw` is the `Math.random()` sample in
`1 + Math.random() * 2`. -/
def NPC.init (id : ℕ) (x y : ℝ) (intervalDraw : ℝ) : NPC :=
  { id := id, position := ⟨x, y⟩, velocity := ⟨0, 0⟩, rotation := 0,
    radius := NPC_RADIUS, health := NPC_HEALTH, maxHealth := NPC_HEALTH,
    speed := NPC_SPEED, aiTimer := 0, aiUpdateInterval := 1 + intervalDraw * 2,
    targetVelocity := ⟨0, 0⟩ }

/-- `NPC.update(deltaTime)`: wander-AI retarget on timer expiry (consuming
two `Math.random()` draws), lerp velocity toward the target, integrate,
wrap around the world edges, face the motion direction above the deadzone.
Returns the updated NPC and the advanced entropy cursor. -/
def NPC.update (dt : ℝ) (rng : ℕ → ℝ) (i : ℕ) (n : NPC) : NPC × ℕ :=
  let t := n.aiTimer + dt
  match (if t ≥ n.aiUpdateInterval then
      let angle := rng i * (2 * Real.pi)
      ((0 : ℝ), (⟨Real.cos angle * n.speed, Real.sin angle * n.speed⟩ : Vec2),
        1 + rng (i + 1) * 2, i + 2)
    else (t, n.targetVelocity, n.aiUpdateInterval, i)) with
  | (aiT, tv, intv, i2) =>
    let vx := n.velocity.x + (tv.x - n.velocity.x) * (1 / 10)
    let vy := n.velocity.y + (tv.y - n.velocity.y) * (1 / 10)
    let px0 := n.position.x + vx * dt
    let py0 := n.position.y + vy * dt
    let px1 := if px0 < -n.radius then WORLD_W + n.radius else px0
    let px2 := if px1 > WORLD_W + n.radius then -n.radius else px1
    let py1 := if py0 < -n.radius then WORLD_H + n.radius else py0
    let py2 := if py1 > WORLD_H + n.radius then -n.radius else py1
    let mag := hypot vx vy
    let rot := if mag > 1 / 10 then atan2 vy vx else n.rotation
    ({ n with
        aiTimer := aiT, targetVelocity := tv, aiUpdateInterval := intv,
        velocity := ⟨vx, vy⟩, position := ⟨px2, py2⟩, rotation := rot }, i2)

def NPC.getBounds (n : NPC) : Rect :=
  ⟨n.position.x - n.radius, n.position.y - n.radius, n.radius * 2, n.radius * 2⟩

/-! ## Delta events (GameWorld.deltaUpdates entries, timestamps omitted) -/

inductive Event where
  | playerAdded (p : Player)
  | playerRemoved (entityId : ℕ)
  | essenceAdded (e : Essence)
  | npcAdded (n : NPC)
  | entityMoved (id : ℕ) (position velocity : Vec2) (rotation : ℝ)
  | essenceCollected (playerId essenceId : ℕ) (essenceCount : ℕ)

/-! ## GameWorld (game/GameWorld.js) -/

structure GameWorld where
  players : List (ℕ × Player)
  essences : List (ℕ × Essence)
  npcs : List (ℕ × NPC)
  tick : ℕ
  quadtree : Quadtree
  entityIdCounter : ℕ
  deltaUpdates : List Event
  rng : ℕ → ℝ
  rngIdx : ℕ

namespace GameWorld

/-- `addPlayer(clientId, playerName)`. -/
def addPlayer (w : GameWorld) (clientId playerName : String) : GameWorld × Player :=
  let pid := w.entityIdCounter + 1
  let p := Player.init pid playerName clientId (WORLD_W / 2) (WORLD_H / 2)
  ({ w with entityIdCounter := pid,
            players := listSet w.players pid p,
            deltaUpdates := w.deltaUpdates ++ [Event.playerAdded p] }, p)

/-- `removePlayer(playerId)`. -/
def removePlayer (w : GameWorld) (playerId : ℕ) : GameWorld :=
  match listGet w.players playerId with
  | none => w
  | some _ => { w with players := listDelete w.players playerId,
                       deltaUpdates := w.deltaUpdates ++ [Event.playerRemoved playerId] }

/-- `spawnEssence(x, y)`; the type and rarity draws come from the entropy
stream, in the order the JS evaluates them. -/
def spawnEssence (w : GameWorld) (x y : ℝ) : GameWorld × Essence :=
  let eid := w.entityIdCounter + 1
  let e := Essence.init eid x y (getRandomEssenceType (w.rng w.rngIdx)) (w.rng (w.rngIdx + 1))
  ({ w with entityIdCounter := eid, rngIdx := w.rngIdx + 2,
            essences := listSet w.essences eid e,
            deltaUpdates := w.deltaUpdates ++ [Event.essenceAdded e] }, e)

/-- `spawnEssence(Math.random() * width, Math.random() * height)` — the
call shape used by collection respawn and population maintenance. -/
def spawnEssenceRand (w : GameWorld) : GameWorld × Essence :=
  let x := w.rng w.rngIdx * WORLD_W
  let y := w.rng (w.rngIdx + 1) * WORLD_H
  spawnEssence { w with rngIdx := w.rngIdx + 2 } x y

/-- `spawnNPC(x, y)`. -/
def spawnNPC (w : GameWorld) (x y : ℝ) : GameWorld × NPC :=
  let nid := w.entityIdCounter + 1
  let n := NPC.init nid x y (w.rng w.rngIdx)
  ({ w with entityIdCounter := nid, rngIdx := w.rngIdx + 1,
            npcs := listSet w.npcs nid n,
            deltaUpdates := w.deltaUpdates ++ [Event.npcAdded n] }, n)

/-- `processPlayerInput(playerId, input)`, with `input.keys || []`
flattened into the key list. -/
def processPlayerInput (w : GameWorld) (playerId : ℕ) (keys : List String) : GameWorld :=
  match listGet w.players playerId with
  | none => w
  | some _ => { w with players := listUpdate w.players playerId (Player.updateVelocity keys) }

/-- One player's turn in the `players.forEach` leg of `update`:
`player.update(deltaTime)` followed by `trackDelta`, which emits
`entityMoved` when `hasMovedSignificantly()` fires.  Returns the updated
player and the optional event. -/
def playerTick (dt : ℝ) (p0 : Player) : Player × Option Event :=
  let m := (Player.update dt p0).hasMovedSignificantly
  (m.2, if m.1 then
    some (Event.entityMoved m.2.id m.2.position m.2.velocity m.2.rotation) else none)

/-- The `players.forEach` leg of `update`. -/
def playersPhase (dt : ℝ) (w : GameWorld) : GameWorld :=
  { w with players := w.players.map (fun kv => (kv.1, (playerTick dt kv.2).1)),
           deltaUpdates := w.deltaUpdates ++ w.players.filterMap (fun kv => (playerTick dt kv.2).2) }

/-- The `npcs.forEach` leg of `update`.  `trackDelta(npc)` never fires
because `NPC` has no `hasMovedSignificantly` method (the guard
`entity.hasMovedSignificantly && ...` is falsy), so no events are emitted. -/
def npcsPhase (dt : ℝ) (w : GameWorld) : GameWorld :=
  let r := w.npcs.foldl (fun (acc : List (ℕ × NPC) × ℕ) kv =>
      let u := NPC.update dt w.rng acc.2 kv.2
      (acc.1 ++ [(kv.1, u.1)], u.2)) ([], w.rngIdx)
  { w with npcs := r.1, rngIdx := r.2 }

/-- The `essences.forEach` leg of `update`. -/
def essencesPhase (dt : ℝ) (w : GameWorld) : GameWorld :=
  { w with essences := w.essences.map (fun kv => (kv.1, Essence.update dt kv.2)) }

/-- The inverse-distance pull applied to a candidate essence's velocity
(`if (distance > 0)` in `updateEssenceAttraction`); at distance 0 the
velocity is left alone. -/
def attractedEssence (player : Player) (e : Essence) : Essence :=
  let dx := player.position.x - e.position.x
  let dy := player.position.y - e.position.y
  let dist := hypot dx dy
  if dist > 0 then
    { e with velocity := ⟨e.velocity.x + dx / dist * (ESSENCE_ATTRACTION_FORCE / (dist + 1)),
                          e.velocity.y + dy / dist * (ESSENCE_ATTRACTION_FORCE / (dist + 1))⟩ }
  else e

/-- The body of the `nearbyEssences.forEach` loop in
`updateEssenceAttraction`: skip ids no longer in the store, apply the
inverse-distance pull to the essence's velocity, and on contact
(`distance < player.radius + essence.radius`) collect: append the (pulled)
essence object to the player, delete the id from the store, emit
`essenceCollected`, spawn one replacement at a random position. -/
def processCandidate (w : GameWorld) (playerId essenceId : ℕ) : GameWorld :=
  match listGet w.players playerId, listGet w.essences essenceId with
  | some player, some e0 =>
    let dist := hypot (player.position.x - e0.position.x) (player.position.y - e0.position.y)
    let e := attractedEssence player e0
    let w1 := { w with essences := listUpdate w.essences essenceId (fun _ => e) }
    if dist < player.radius + e.radius then
      let player1 := player.addEssence e
      let w2 := { w1 with
        players := listUpdate w1.players playerId (fun _ => player1),
        essences := listDelete w1.essences essenceId,
        deltaUpdates := w1.deltaUpdates ++
          [Event.essenceCollected playerId essenceId player1.essences.length] }
      (w2.spawnEssenceRand).1
    else w1
  | _, _ => w

/-- One player's turn in `updateEssenceAttraction`: query the (stale,
last-rebuilt) quadtree around the player and run `processCandidate` over
the hits in order. -/
def attractPlayer (w : GameWorld) (playerId : ℕ) : GameWorld :=
  match listGet w.players playerId with
  | none => w
  | some player =>
    let region : Rect := ⟨player.position.x - ESSENCE_ATTRACTION_RANGE,
                          player.position.y - ESSENCE_ATTRACTION_RANGE,
                          ESSENCE_ATTRACTION_RANGE * 2, ESSENCE_ATTRACTION_RANGE * 2⟩
    (w.quadtree.search region).foldl (fun w2 eid => w2.processCandidate playerId eid) w

/-- `updateEssenceAttraction()`. -/
def updateEssenceAttraction (w : GameWorld) : GameWorld :=
  (w.players.map Prod.fst).foldl attractPlayer w

/-- A player-or-NPC reference in the `allEntities` array of
`handleCollisions` (the array holds live object references; we key them). -/
inductive ERef where
  | player (id : ℕ)
  | npc (id : ℕ)

/-- Two references denote different objects. -/
def ERef.distinct : ERef → ERef → Prop
  | .player i, .player j => i ≠ j
  | .npc i, .npc j => i ≠ j
  | _, _ => True

def refGet (w : GameWorld) : ERef → Option (Vec2 × ℝ)
  | .player id => (listGet w.players id).map (fun p => (p.position, p.radius))
  | .npc id => (listGet w.npcs id).map (fun n => (n.position, n.radius))

/-- Write an entity's position back through its reference (only the
`position` field is assigned by `resolveCollision`). -/
def refSetPos (w : GameWorld) : ERef → Vec2 → GameWorld
  | .player id, v =>
    { w with players := listUpdate w.players id (fun p => { p with position := v }) }
  | .npc id, v =>
    { w with npcs := listUpdate w.npcs id (fun n => { n with position := v }) }

/-- `resolveCollision(entity1, entity2)`: symmetric separation by half the
overlap each along the connecting axis; the zero-distance case is skipped. -/
def resolveCollision (w : GameWorld) (a b : ERef) (p1 : Vec2) (r1 : ℝ) (p2 : Vec2) (r2 : ℝ) :
    GameWorld :=
  let dx := p2.x - p1.x
  let dy := p2.y - p1.y
  let dist := hypot dx dy
  if dist > 0 then
    let overlap := (r1 + r2 - dist) / 2
    let sx := dx / dist * overlap
    let sy := dy / dist * overlap
    (w.refSetPos a ⟨p1.x - sx, p1.y - sy⟩).refSetPos b ⟨p2.x + sx, p2.y + sy⟩
  else w

/-- One `(i, j)` iteration of `handleCollisions`: the circle-overlap test
`checkAABBCollision` followed by `resolveCollision` when it hits. -/
def collideStep (w : GameWorld) (a b : ERef) : GameWorld :=
  match w.refGet a, w.refGet b with
  | some e1, some e2 =>
    if hypot (e2.1.x - e1.1.x) (e2.1.y - e1.1.y) < e1.2 + e2.2 then
      w.resolveCollision a b e1.1 e1.2 e2.1 e2.2
    else w
  | _, _ => w

end GameWorld

/-- The `i`-outer, `j = i+1`-inner double loop over unordered pairs. -/
def pairsFold {α β : Type _} (step : α → β → β → α) : α → List β → α
  | a, [] => a
  | a, b :: rest => pairsFold step (rest.foldl (fun acc c => step acc b c) a) rest

namespace GameWorld

/-- `handleCollisions()`: players then NPCs, every unordered pair. -/
def handleCollisions (w : GameWorld) : GameWorld :=
  let refs := w.players.map (fun kv => ERef.player kv.1) ++ w.npcs.map (fun kv => ERef.npc kv.1)
  pairsFold collideStep w refs

/-- `checkEssenceRespawn()`: top the essence population back up to the
floor; `needed` is computed once before the loop. -/
def checkEssenceRespawn (w : GameWorld) : GameWorld :=
  if w.essences.length < MIN_ESSENCE_COUNT then
    (List.range (MIN_ESSENCE_COUNT - w.essences.length)).foldl
      (fun w2 _ => (w2.spawnEssenceRand).1) w
  else w

/-- `rebuildQuadtree()`: clear, then insert players, essences, NPCs. -/
def rebuildQuadtree (w : GameWorld) : GameWorld :=
  let t0 := w.quadtree.clear
  let t1 := w.players.foldl (fun t kv => (t.insert kv.1 kv.2.getBounds).1) t0
  let t2 := w.essences.foldl (fun t kv => (t.insert kv.1 kv.2.getBounds).1) t1
  let t3 := w.npcs.foldl (fun t kv => (t.insert kv.1 kv.2.getBounds).1) t2
  { w with quadtree := t3 }

/-- `update(deltaTime)`: one full tick in source order. -/
def update (dt : ℝ) (w : GameWorld) : GameWorld :=
  let w1 := { w with tick := w.tick + 1, deltaUpdates := [] }
  let w2 := w1.playersPhase dt
  let w3 := w2.npcsPhase dt
  let w4 := w3.essencesPhase dt
  let w5 := w4.updateEssenceAttraction
  let w6 := w5.handleCollisions
  let w7 := w6.checkEssenceRespawn
  w7.rebuildQuadtree

end GameWorld

/-! ## Field-preservation relations used by the frame theorems -/

/-- `q` agrees with `p` on every field except (possibly) `position`. -/
def Player.SameExceptPos (p q : Player) : Prop := q = { p with position := q.position }

/-- `m` agrees with `n` on every field except (possibly) `position`. -/
def NPC.SameExceptPos (n m : NPC) : Prop := m = { n with position := m.position }

/-- `q` agrees with `p` on every field except `essences`, which only grew
by a suffix. -/
def Player.SameExceptEss (p q : Player) : Prop :=
  q = { p with essences := q.essences } ∧ ∃ s, q.essences = p.essences ++ s

/-- The collected-essence list only grew (by a suffix); all other fields
are unconstrained. -/
def Player.EssGrew (p q : Player) : Prop := ∃ s, q.essences = p.essences ++ s

/-- Lift a value relation to keyed entries with identical keys. -/
def keyedRel {V : Type _} (R : V → V → Prop) : (ℕ × V) → (ℕ × V) → Prop :=
  fun a b => b.1 = a.1 ∧ R a.2 b.2

/-- The frame of the collision-resolution pass: entry-for-entry, players
and NPCs change at most their `position`; everything else in the world
(essences, deltas, counters, quadtree, entropy cursor) is untouched. -/
def GameWorld.PosOnly (w w' : GameWorld) : Prop :=
  List.Forall₂ (keyedRel Player.SameExceptPos) w.players w'.players ∧
  List.Forall₂ (keyedRel NPC.SameExceptPos) w.npcs w'.npcs ∧
  w'.essences = w.essences ∧ w'.tick = w.tick ∧ w'.quadtree = w.quadtree ∧
  w'.entityIdCounter = w.entityIdCounter ∧ w'.deltaUpdates = w.deltaUpdates ∧
  w'.rng = w.rng ∧ w'.rngIdx = w.rngIdx

/-- When the event is `essenceCollected`, the essence id it names already
existed when the entity-id counter stood at `c` (ids above `c` are the
ones handed out later in the tick). -/
def Event.CollectedOld (c : ℕ) : Event → Prop
  | .essenceCollected _ eid _ => eid ≤ c
  | _ => True

/-- Every essence whose id exceeds `c` — i.e. was spawned after the
counter stood at `c` — still carries its initial zero velocity (it has
never been pulled by the attraction pass). -/
def GameWorld.FreshStill (c : ℕ) (w : GameWorld) : Prop :=
  ∀ eid e, listGet w.essences eid = some e → c < eid → e.velocity = ⟨0, 0⟩

/-- The invariant carried through the attraction, collision and respawn
passes of a tick whose pre-tick counter was `c` and whose (stale)
spatial index is `qt`: the index is untouched, the counter never drops
below `c`, every `essenceCollected` event emitted so far names a
pre-existing id, and freshly spawned essences are unperturbed. -/
def GameWorld.FreshInv (c : ℕ) (qt : Quadtree) (w : GameWorld) : Prop :=
  w.quadtree = qt ∧ c ≤ w.entityIdCounter ∧
  (∀ ev ∈ w.deltaUpdates, Event.CollectedOld c ev) ∧ GameWorld.FreshStill c w

/-! ## Concrete scenario states used by counterexamples and witnesses -/

/-- A degenerate entropy stream (every `Math.random()` draw returns 0). -/
def rng0 : ℕ → ℝ := fun _ => 0

def cwPlayer : Player := Player.init 1 "p1" "c1" 1000 1000

def cwEssence : Essence :=
  { id := 2, position := ⟨1001, 1000⟩, velocity := ⟨0, 0⟩, etype := "fire",
    rarity := "common", level := 1, radius := 3 }

/-- A world with one player at the centre and one essence one unit to its
right (inside collection range), the quadtree as `rebuildQuadtree` would
have left it at the end of the previous tick. -/
def cw : GameWorld :=
  { players := [(1, cwPlayer)], essences := [(2, cwEssence)], npcs := [],
    tick := 0,
    quadtree := .leaf worldRect 4 8 0 [(1, cwPlayer.getBounds), (2, cwEssence.getBounds)],
    entityIdCounter := 2, deltaUpdates := [], rng := rng0, rngIdx := 0 }

/-- The `cw` player after its per-player update on a quiet tick: same
numbers, with `radius` and `maxVelocity` freshly recomputed. -/
def cwP2 : Player := { cwPlayer with position := ⟨1000, 1000⟩, radius := 8, maxVelocity := 250 }

/-- The `cw` world after the per-kind update phases of one tick. -/
def cwMid : GameWorld := { cw with tick := 1, players := [(1, cwP2)] }

def c5Player : Player := Player.init 1 "p1" "c1" 8 1000

def c5NPC : NPC := NPC.init 2 12 1000 (1 / 2)

/-- A world with a player resting on the left wall (x = radius = 8) and an
NPC overlapping it from the right (x = 12, radius 6). -/
def c5w : GameWorld :=
  { players := [(1, c5Player)], essences := [], npcs := [(2, c5NPC)],
    tick := 0,
    quadtree := .leaf worldRect 4 8 0 [(1, c5Player.getBounds), (2, c5NPC.getBounds)],
    entityIdCounter := 2, deltaUpdates := [], rng := rng0, rngIdx := 0 }

/-- `c5Player` after its per-player update (numerically unchanged except
the recomputed derived fields). -/
def c5P2 : Player := { c5Player with position := ⟨8, 1000⟩, radius := 8, maxVelocity := 250 }

/-- `c5NPC` after one NPC update with `dt = 1/10` (no retarget yet). -/
def c5N2 : NPC := { c5NPC with aiTimer := 1 / 10 }

/-- `c5w` after the players phase of one tick. -/
def c5A : GameWorld := { c5w with tick := 1, players := [(1, c5P2)] }

/-- `c5w` after all per-kind update phases of one tick. -/
def c5Mid : GameWorld := { c5A with npcs := [(2, c5N2)] }

/-- A player carrying 102400 collected essences (so `count / 100 = 1024`
and the power-law penalty is exactly `1024^0.3 = 8`). -/
def c4Player : Player :=
  { Player.init 1 "p1" "c1" 1000 1000 with essences := List.replicate 102400 cwEssence }

def c6NPC1 : NPC := NPC.init 1 100 100 0

def c6NPC2 : NPC := NPC.init 2 104 100 0

/-- A world with two radius-6 NPCs placed 4 units apart (overlapping). -/
def c6w : GameWorld :=
  { players := [], essences := [], npcs := [(1, c6NPC1), (2, c6NPC2)], tick := 0,
    quadtree := Quadtree.make worldRect 4 8, entityIdCounter := 2,
    deltaUpdates := [], rng := rng0, rngIdx := 0 }

def bdC1 : Rect := ⟨0, 0, 1, 1⟩
def regC1 : Rect := ⟨1500, 1500, 10, 10⟩

/-- The index after inserting id 1 with bounds far away from `regC1`. -/
def tC1 : Quadtree := ((Quadtree.make worldRect 4 8).insert 1 bdC1).1

/-! # Theorems

First the association-list lemmas, then geometry and quadtree lemmas,
then the frame lemmas about the tick phases, then one theorem (plus
witness or counterexample) per claim. -/

section ListLemmas

variable {V : Type _}

@[simp] theorem listGet_nil (k : ℕ) : listGet ([] : List (ℕ × V)) k = none := rfl

theorem listGet_listUpdate_self (l : List (ℕ × V)) (k : ℕ) (f : V → V) :
    listGet (listUpdate l k f) k = (listGet l k).map f := by
  induction l with
  | nil => simp [listUpdate]
  | cons kv rest ih =>
    by_cases h : kv.1 = k
    · simp [listUpdate, listGet, h]
    · simp [listUpdate, listGet, h, ih]

theorem listGet_listUpdate_ne (l : List (ℕ × V)) {k k' : ℕ} (f : V → V) (h : k' ≠ k) :
    listGet (listUpdate l k f) k' = listGet l k' := by
  induction l with
  | nil => simp [listUpdate]
  | cons kv rest ih =>
    by_cases hk : kv.1 = k
    · have hne : ¬ kv.1 = k' := by rw [hk]; exact fun hh => h hh.symm
      simp only [listUpdate, if_pos hk, listGet, hne, if_false, if_neg hne]
    · simp only [listUpdate, if_neg hk, listGet, ih]

@[simp] theorem listUpdate_length (l : List (ℕ × V)) (k : ℕ) (f : V → V) :
    (listUpdate l k f).length = l.length := by
  induction l with
  | nil => simp [listUpdate]
  | cons kv rest ih =>
    by_cases h : kv.1 = k <;> simp [listUpdate, h, ih]

@[simp] theorem keys_listUpdate (l : List (ℕ × V)) (k : ℕ) (f : V → V) :
    (listUpdate l k f).map Prod.fst = l.map Prod.fst := by
  induction l with
  | nil => simp [listUpdate]
  | cons kv rest ih =>
    by_cases h : kv.1 = k <;> simp [listUpdate, h, ih]

theorem listGet_listSet_self (l : List (ℕ × V)) (k : ℕ) (v : V) :
    listGet (listSet l k v) k = some v := by
  induction l with
  | nil => simp [listSet, listGet]
  | cons kv rest ih =>
    by_cases h : kv.1 = k <;> simp [listSet, listGet, h, ih]

theorem listGet_listSet_ne (l : List (ℕ × V)) {k k' : ℕ} (v : V) (h : k' ≠ k) :
    listGet (listSet l k v) k' = listGet l k' := by
  induction l with
  | nil =>
    have : ¬ k = k' := fun hh => h hh.symm
    simp [listSet, listGet, this]
  | cons kv rest ih =>
    by_cases hk : kv.1 = k
    · have hne : ¬ kv.1 = k' := by rw [hk]; exact fun hh => h hh.symm
      have hne2 : ¬ k = k' := fun hh => h hh.symm
      simp only [listSet, if_pos hk, listGet, if_neg hne2, if_neg hne]
    · simp only [listSet, if_neg hk, listGet, ih]

theorem listSet_of_absent (l : List (ℕ × V)) (k : ℕ) (v : V) (h : listGet l k = none) :
    listSet l k v = l ++ [(k, v)] := by
  induction l with
  | nil => simp [listSet]
  | cons kv rest ih =>
    by_cases hk : kv.1 = k
    · simp [listGet, hk] at h
    · simp [listGet, hk] at h
      simp [listSet, hk, ih h]

theorem listGet_none_of_forall_ne (l : List (ℕ × V)) (k : ℕ)
    (h : ∀ kv ∈ l, kv.1 ≠ k) : listGet l k = none := by
  induction l with
  | nil => rfl
  | cons kv rest ih =>
    have h1 := h kv (by simp)
    simp [listGet, h1]
    exact ih fun kv' hm => h kv' (by simp [hm])

theorem listGet_mem (l : List (ℕ × V)) (k : ℕ) (v : V)
    (h : listGet l k = some v) : (k, v) ∈ l := by
  induction l with
  | nil => simp [listGet] at h
  | cons kv rest ih =>
    by_cases hk : kv.1 = k
    · simp only [listGet, if_pos hk, Option.some.injEq] at h
      subst hk
      subst h
      exact List.mem_cons_self _ _
    · simp only [listGet, if_neg hk] at h
      exact List.mem_cons_of_mem _ (ih h)

theorem listDelete_length (l : List (ℕ × V)) (k : ℕ) (h : (listGet l k).isSome) :
    (listDelete l k).length + 1 = l.length := by
  induction l with
  | nil => simp [listGet] at h
  | cons kv rest ih =>
    by_cases hk : kv.1 = k
    · simp [listDelete, hk]
    · simp [listGet, hk] at h
      simp [listDelete, hk, ih h]

theorem listGet_listDelete_ne (l : List (ℕ × V)) {k k' : ℕ} (h : k' ≠ k) :
    listGet (listDelete l k) k' = listGet l k' := by
  induction l with
  | nil => simp [listDelete]
  | cons kv rest ih =>
    by_cases hk : kv.1 = k
    · have hne : ¬ kv.1 = k' := by rw [hk]; exact fun hh => h hh.symm
      simp only [listDelete, if_pos hk, listGet, if_neg hne]
    · simp only [listDelete, if_neg hk, listGet, ih]

theorem mem_listDelete (l : List (ℕ × V)) (k : ℕ) {kv : ℕ × V}
    (h : kv ∈ listDelete l k) : kv ∈ l := by
  induction l with
  | nil => simp [listDelete] at h
  | cons kv' rest ih =>
    by_cases hk : kv'.1 = k
    · simp [listDelete, hk] at h
      exact List.mem_cons_of_mem _ h
    · simp [listDelete, hk] at h
      rcases h with h | h
      · simp [h]
      · exact List.mem_cons_of_mem _ (ih h)

theorem listGet_listDelete_self (l : List (ℕ × V)) (k : ℕ)
    (hnd : (l.map Prod.fst).Nodup) : listGet (listDelete l k) k = none := by
  induction l with
  | nil => rfl
  | cons kv rest ih =>
    simp only [List.map_cons, List.nodup_cons] at hnd
    by_cases hk : kv.1 = k
    · subst hk
      simp only [listDelete, if_pos rfl]
      exact listGet_none_of_forall_ne _ _
        fun kv' hm hh => hnd.1 (hh ▸ List.mem_map_of_mem Prod.fst hm)
    · simp [listDelete, listGet, hk, ih hnd.2]

theorem mem_listUpdate (l : List (ℕ × V)) (k : ℕ) (f : V → V) {kv : ℕ × V}
    (h : kv ∈ listUpdate l k f) : kv ∈ l ∨ (kv.1 = k ∧ ∃ v, (k, v) ∈ l ∧ kv.2 = f v) := by
  induction l with
  | nil => simp [listUpdate] at h
  | cons kv' rest ih =>
    by_cases hk : kv'.1 = k
    · simp only [listUpdate, if_pos hk] at h
      rcases List.mem_cons.mp h with h1 | h1
      · right
        subst hk
        refine ⟨by rw [h1], kv'.2, ?_, by rw [h1]⟩
        exact List.mem_cons_self _ _
      · left
        exact List.mem_cons_of_mem _ h1
    · simp only [listUpdate, if_neg hk] at h
      rcases List.mem_cons.mp h with h1 | h1
      · left
        rw [h1]
        exact List.mem_cons_self _ _
      · rcases ih h1 with h2 | ⟨h2, v, hv, hfv⟩
        · left; exact List.mem_cons_of_mem _ h2
        · right; exact ⟨h2, v, List.mem_cons_of_mem _ hv, hfv⟩

theorem listGet_map_value (l : List (ℕ × V)) (k : ℕ) (f : V → V) :
    listGet (l.map (fun kv => (kv.1, f kv.2))) k = (listGet l k).map f := by
  induction l with
  | nil => simp
  | cons kv rest ih =>
    by_cases h : kv.1 = k <;> simp [listGet, h, ih]

end ListLemmas

/-! ## Geometry and quadtree lemmas -/

theorem rectIntersects_mono {c b q : Rect} (hsub : Rect.subRect c b)
    (h : rectIntersects c q) : rectIntersects b q := by
  unfold rectIntersects at h ⊢
  push_neg at h ⊢
  obtain ⟨h1, h2, h3, h4⟩ := h
  obtain ⟨s1, s2, s3, s4⟩ := hsub
  exact ⟨by linarith, by linarith, by linarith, by linarith⟩

theorem quadrants_subRect {b : Rect} (hw : 0 ≤ b.width) (hh : 0 ≤ b.height) :
    Rect.subRect (Quadtree.quadrants b).1 b ∧ Rect.subRect (Quadtree.quadrants b).2.1 b ∧
    Rect.subRect (Quadtree.quadrants b).2.2.1 b ∧ Rect.subRect (Quadtree.quadrants b).2.2.2 b := by
  unfold Quadtree.quadrants Rect.subRect
  dsimp only
  refine ⟨⟨le_refl _, by linarith, le_refl _, by linarith⟩,
    ⟨by linarith, by linarith, le_refl _, by linarith⟩,
    ⟨le_refl _, by linarith, by linarith, by linarith⟩,
    ⟨by linarith, by linarith, by linarith, by linarith⟩⟩

theorem Quadtree.insertGo_bounds (fuel : ℕ) (t : Quadtree) (id : ℕ) (bd : Rect) :
    ((Quadtree.insertGo fuel t id bd).1).bounds = t.bounds := by
  cases fuel with
  | zero => rfl
  | succ fuel =>
    cases t with
    | leaf b me md d ents =>
      dsimp only [insertGo]
      split
      · rfl
      split
      · rfl
      split
      · rfl
      split
      · rfl
      split
      · rfl
      rfl
    | branch b me md d ents c1 c2 c3 c4 =>
      dsimp only [insertGo]
      split
      · rfl
      split
      · rfl
      split
      · rfl
      split
      · rfl
      split
      · rfl
      rfl

theorem Quadtree.quadrant_leaf_wf {b : Rect} (hw : 0 ≤ b.width) (hh : 0 ≤ b.height)
    (r : Rect) (me md d : ℕ)
    (hr : r = (Quadtree.quadrants b).1 ∨ r = (Quadtree.quadrants b).2.1 ∨
      r = (Quadtree.quadrants b).2.2.1 ∨ r = (Quadtree.quadrants b).2.2.2) :
    (Quadtree.leaf r me md d []).wf := by
  have hw2 : 0 ≤ b.width / 2 := by linarith
  have hh2 : 0 ≤ b.height / 2 := by linarith
  rcases hr with h | h | h | h <;> subst h <;> exact ⟨hw2, hh2⟩

theorem Quadtree.insertGo_wf : ∀ (fuel : ℕ) (t : Quadtree) (id : ℕ) (bd : Rect),
    t.wf → ((Quadtree.insertGo fuel t id bd).1).wf := by
  intro fuel
  induction fuel with
  | zero => intro t id bd h; exact h
  | succ fuel ih =>
    intro t id bd hwf
    cases t with
    | leaf b me md d ents =>
      obtain ⟨hw, hh⟩ := hwf
      have hc1 : (Quadtree.leaf (quadrants b).1 me md (d + 1) []).wf :=
        quadrant_leaf_wf hw hh _ _ _ _ (Or.inl rfl)
      have hc2 : (Quadtree.leaf (quadrants b).2.1 me md (d + 1) []).wf :=
        quadrant_leaf_wf hw hh _ _ _ _ (Or.inr (Or.inl rfl))
      have hc3 : (Quadtree.leaf (quadrants b).2.2.1 me md (d + 1) []).wf :=
        quadrant_leaf_wf hw hh _ _ _ _ (Or.inr (Or.inr (Or.inl rfl)))
      have hc4 : (Quadtree.leaf (quadrants b).2.2.2 me md (d + 1) []).wf :=
        quadrant_leaf_wf hw hh _ _ _ _ (Or.inr (Or.inr (Or.inr rfl)))
      dsimp only [insertGo]
      split
      · exact ⟨hw, hh⟩
      split
      · exact ⟨hw, hh⟩
      split
      · exact ⟨hw, hh, insertGo_bounds _ _ _ _, rfl, rfl, rfl, ih _ _ _ hc1, hc2, hc3, hc4⟩
      split
      · exact ⟨hw, hh, insertGo_bounds _ _ _ _, insertGo_bounds _ _ _ _, rfl, rfl,
          ih _ _ _ hc1, ih _ _ _ hc2, hc3, hc4⟩
      split
      · exact ⟨hw, hh, insertGo_bounds _ _ _ _, insertGo_bounds _ _ _ _, insertGo_bounds _ _ _ _, rfl,
          ih _ _ _ hc1, ih _ _ _ hc2, ih _ _ _ hc3, hc4⟩
      exact ⟨hw, hh, insertGo_bounds _ _ _ _, insertGo_bounds _ _ _ _, insertGo_bounds _ _ _ _,
        insertGo_bounds _ _ _ _, ih _ _ _ hc1, ih _ _ _ hc2, ih _ _ _ hc3, ih _ _ _ hc4⟩
    | branch b me md d ents c1 c2 c3 c4 =>
      obtain ⟨hw, hh, hb1, hb2, hb3, hb4, hw1, hw2, hw3, hw4⟩ := hwf
      dsimp only [insertGo]
      split
      · exact ⟨hw, hh, hb1, hb2, hb3, hb4, hw1, hw2, hw3, hw4⟩
      split
      · exact ⟨hw, hh, hb1, hb2, hb3, hb4, hw1, hw2, hw3, hw4⟩
      split
      · exact ⟨hw, hh, (insertGo_bounds _ _ _ _).trans hb1, hb2, hb3, hb4,
          ih _ _ _ hw1, hw2, hw3, hw4⟩
      split
      · exact ⟨hw, hh, (insertGo_bounds _ _ _ _).trans hb1, (insertGo_bounds _ _ _ _).trans hb2,
          hb3, hb4, ih _ _ _ hw1, ih _ _ _ hw2, hw3, hw4⟩
      split
      · exact ⟨hw, hh, (insertGo_bounds _ _ _ _).trans hb1, (insertGo_bounds _ _ _ _).trans hb2,
          (insertGo_bounds _ _ _ _).trans hb3, hb4, ih _ _ _ hw1, ih _ _ _ hw2, ih _ _ _ hw3, hw4⟩
      exact ⟨hw, hh, (insertGo_bounds _ _ _ _).trans hb1, (insertGo_bounds _ _ _ _).trans hb2,
        (insertGo_bounds _ _ _ _).trans hb3, (insertGo_bounds _ _ _ _).trans hb4,
        ih _ _ _ hw1, ih _ _ _ hw2, ih _ _ _ hw3, ih _ _ _ hw4⟩

theorem Quadtree.wf_collect_nil : ∀ (t : Quadtree) (q : Rect),
    t.wf → ¬ rectIntersects t.bounds q → t.collectIntersecting q = [] := by
  intro t
  induction t with
  | leaf b me md d ents =>
    intro q _ hni
    simp only [collectIntersecting, bounds] at *
    simp [hni]
  | branch b me md d ents c1 c2 c3 c4 ih1 ih2 ih3 ih4 =>
    intro q hwf hni
    obtain ⟨hw, hh, hb1, hb2, hb3, hb4, hw1, hw2, hw3, hw4⟩ := hwf
    simp only [bounds] at hni
    obtain ⟨s1, s2, s3, s4⟩ := quadrants_subRect hw hh
    have n1 : ¬ rectIntersects c1.bounds q := fun h =>
      hni (rectIntersects_mono (hb1 ▸ s1) h)
    have n2 : ¬ rectIntersects c2.bounds q := fun h =>
      hni (rectIntersects_mono (hb2 ▸ s2) h)
    have n3 : ¬ rectIntersects c3.bounds q := fun h =>
      hni (rectIntersects_mono (hb3 ▸ s3) h)
    have n4 : ¬ rectIntersects c4.bounds q := fun h =>
      hni (rectIntersects_mono (hb4 ▸ s4) h)
    simp only [collectIntersecting, if_neg hni, List.nil_append,
      ih1 q hw1 n1, ih2 q hw2 n2, ih3 q hw3 n3, ih4 q hw4 n4, List.append_nil]

theorem Quadtree.search_eq_collectIntersecting : ∀ (t : Quadtree) (q : Rect),
    t.wf → t.search q = t.collectIntersecting q := by
  intro t
  induction t with
  | leaf b me md d ents =>
    intro q _
    rfl
  | branch b me md d ents c1 c2 c3 c4 ih1 ih2 ih3 ih4 =>
    intro q hwf
    obtain ⟨hw, hh, hb1, hb2, hb3, hb4, hw1, hw2, hw3, hw4⟩ := hwf
    by_cases hi : rectIntersects b q
    · simp only [search, if_pos hi, collectIntersecting,
        ih1 q hw1, ih2 q hw2, ih3 q hw3, ih4 q hw4]
    · obtain ⟨s1, s2, s3, s4⟩ := quadrants_subRect hw hh
      have n1 : ¬ rectIntersects c1.bounds q := fun h =>
        hi (rectIntersects_mono (hb1 ▸ s1) h)
      have n2 : ¬ rectIntersects c2.bounds q := fun h =>
        hi (rectIntersects_mono (hb2 ▸ s2) h)
      have n3 : ¬ rectIntersects c3.bounds q := fun h =>
        hi (rectIntersects_mono (hb3 ▸ s3) h)
      have n4 : ¬ rectIntersects c4.bounds q := fun h =>
        hi (rectIntersects_mono (hb4 ▸ s4) h)
      simp only [search, if_neg hi, collectIntersecting, List.nil_append,
        wf_collect_nil c1 q hw1 n1, wf_collect_nil c2 q hw2 n2,
        wf_collect_nil c3 q hw3 n3, wf_collect_nil c4 q hw4 n4, List.append_nil]

theorem buildIndex_wf (inserts : List (ℕ × Rect)) : (buildIndex inserts).wf := by
  have base : (Quadtree.make worldRect 4 8).wf := by
    constructor <;> norm_num [worldRect, WORLD_W, WORLD_H]
  unfold buildIndex
  generalize Quadtree.make worldRect 4 8 = t0 at base ⊢
  induction inserts generalizing t0 with
  | nil => exact base
  | cons p rest ih =>
    exact ih _ (Quadtree.insertGo_wf _ _ _ _ base)

theorem Quadtree.mem_search_storedIds : ∀ (t : Quadtree) (q : Rect) (id : ℕ),
    id ∈ t.search q → id ∈ t.storedIds := by
  intro t
  induction t with
  | leaf b me md d ents =>
    intro q id h
    simp only [search] at h
    by_cases hi : rectIntersects b q
    · rw [if_pos hi] at h
      exact h
    · rw [if_neg hi] at h
      simp at h
  | branch b me md d ents c1 c2 c3 c4 ih1 ih2 ih3 ih4 =>
    intro q id h
    simp only [search] at h
    by_cases hi : rectIntersects b q
    · rw [if_pos hi] at h
      simp only [List.mem_append] at h
      simp only [storedIds, List.mem_append]
      rcases h with h | h | h | h | h
      · exact Or.inl h
      · exact Or.inr (Or.inl (ih1 q id h))
      · exact Or.inr (Or.inr (Or.inl (ih2 q id h)))
      · exact Or.inr (Or.inr (Or.inr (Or.inl (ih3 q id h))))
      · exact Or.inr (Or.inr (Or.inr (Or.inr (ih4 q id h))))
    · rw [if_neg hi] at h
      simp at h

/-! ## Keyed Forall₂ machinery -/

section KeyedRel

variable {V : Type _} {R : V → V → Prop}

theorem forall2_keyed_refl (hrefl : ∀ v, R v v) (l : List (ℕ × V)) :
    List.Forall₂ (keyedRel R) l l :=
  List.forall₂_same.mpr fun x _ => ⟨rfl, hrefl x.2⟩

theorem forall2_keyed_trans (htrans : ∀ a b c, R a b → R b c → R a c)
    {l1 l2 l3 : List (ℕ × V)} (h12 : List.Forall₂ (keyedRel R) l1 l2)
    (h23 : List.Forall₂ (keyedRel R) l2 l3) : List.Forall₂ (keyedRel R) l1 l3 := by
  induction h12 generalizing l3 with
  | nil => cases h23; constructor
  | cons hab hrest ih =>
    cases h23 with
    | cons hbc hrest2 =>
      exact List.Forall₂.cons ⟨hbc.1.trans hab.1, htrans _ _ _ hab.2 hbc.2⟩ (ih hrest2)

theorem forall2_keyed_get {l l' : List (ℕ × V)}
    (h : List.Forall₂ (keyedRel R) l l') (k : ℕ) :
    OptRel R (listGet l k) (listGet l' k) := by
  induction h with
  | nil => trivial
  | cons hab hrest ih =>
    rename_i a b l1 l2
    by_cases hk : a.1 = k
    · have hk2 : b.1 = k := hab.1.trans hk
      simp only [listGet, if_pos hk, if_pos hk2]
      exact hab.2
    · have hk2 : ¬ b.1 = k := fun hh => hk (hab.1 ▸ hh)
      simp only [listGet, if_neg hk, if_neg hk2]
      exact ih

theorem forall2_listUpdate_of_rel (hrefl : ∀ v, R v v) (f : V → V)
    (hf : ∀ v, R v (f v)) (l : List (ℕ × V)) (k : ℕ) :
    List.Forall₂ (keyedRel R) l (listUpdate l k f) := by
  induction l with
  | nil => constructor
  | cons kv rest ih =>
    by_cases hk : kv.1 = k
    · simp only [listUpdate, if_pos hk]
      exact List.Forall₂.cons ⟨rfl, hf kv.2⟩ (forall2_keyed_refl hrefl rest)
    · simp only [listUpdate, if_neg hk]
      exact List.Forall₂.cons ⟨rfl, hrefl kv.2⟩ ih

theorem forall2_listUpdate_const (hrefl : ∀ v, R v v)
    (l : List (ℕ × V)) (k : ℕ) {p q : V} (hget : listGet l k = some p) (hrel : R p q) :
    List.Forall₂ (keyedRel R) l (listUpdate l k (fun _ => q)) := by
  induction l with
  | nil => constructor
  | cons kv rest ih =>
    by_cases hk : kv.1 = k
    · simp only [listGet, if_pos hk, Option.some.injEq] at hget
      simp only [listUpdate, if_pos hk]
      exact List.Forall₂.cons ⟨rfl, hget ▸ hrel⟩ (forall2_keyed_refl hrefl rest)
    · simp only [listGet, if_neg hk] at hget
      simp only [listUpdate, if_neg hk]
      exact List.Forall₂.cons ⟨rfl, hrefl kv.2⟩ (ih hget)

theorem foldl_rel {α β : Type _} (R2 : α → α → Prop) (hrefl : ∀ a, R2 a a)
    (htrans : ∀ a b c, R2 a b → R2 b c → R2 a c) (f : α → β → α)
    (hstep : ∀ a b, R2 a (f a b)) : ∀ (l : List β) (a : α), R2 a (List.foldl f a l) := by
  intro l
  induction l with
  | nil => intro a; exact hrefl a
  | cons b rest ih =>
    intro a
    exact htrans _ _ _ (hstep a b) (ih _)

theorem pairsFold_rel {α β : Type _} (R2 : α → α → Prop) (hrefl : ∀ a, R2 a a)
    (htrans : ∀ a b c, R2 a b → R2 b c → R2 a c) (step : α → β → β → α)
    (hstep : ∀ a x y, R2 a (step a x y)) :
    ∀ (l : List β) (a : α), R2 a (pairsFold step a l) := by
  intro l
  induction l with
  | nil => intro a; exact hrefl a
  | cons b rest ih =>
    intro a
    refine htrans _ _ _ ?_ (ih _)
    exact foldl_rel R2 hrefl htrans _ (fun a2 c => hstep a2 b c) rest a

end KeyedRel

/-! ## Field-projection facts -/

theorem Player.SameExceptPos.reflPos (p : Player) : Player.SameExceptPos p p := rfl

theorem Player.SameExceptPos.transPos {p q r : Player}
    (h1 : Player.SameExceptPos p q) (h2 : Player.SameExceptPos q r) :
    Player.SameExceptPos p r := by
  unfold Player.SameExceptPos at *
  rw [h2, h1]

theorem NPC.SameExceptPos.reflNPos (n : NPC) : NPC.SameExceptPos n n := rfl

theorem NPC.SameExceptPos.transNPos {p q r : NPC}
    (h1 : NPC.SameExceptPos p q) (h2 : NPC.SameExceptPos q r) :
    NPC.SameExceptPos p r := by
  unfold NPC.SameExceptPos at *
  rw [h2, h1]

theorem Player.SameExceptEss.reflEss (p : Player) : Player.SameExceptEss p p :=
  ⟨rfl, [], by simp⟩

theorem Player.SameExceptEss.transEss {p q r : Player}
    (h1 : Player.SameExceptEss p q) (h2 : Player.SameExceptEss q r) :
    Player.SameExceptEss p r := by
  obtain ⟨hq, s1, hs1⟩ := h1
  obtain ⟨hr, s2, hs2⟩ := h2
  constructor
  · rw [hr, hq]
  · exact ⟨s1 ++ s2, by rw [hs2, hs1, List.append_assoc]⟩

/-! ## Collision pass frame lemmas -/

theorem GameWorld.PosOnly.reflAll (w : GameWorld) : GameWorld.PosOnly w w :=
  ⟨forall2_keyed_refl Player.SameExceptPos.reflPos _,
   forall2_keyed_refl NPC.SameExceptPos.reflNPos _, rfl, rfl, rfl, rfl, rfl, rfl, rfl⟩

theorem GameWorld.PosOnly.transAll {w1 w2 w3 : GameWorld}
    (h12 : GameWorld.PosOnly w1 w2) (h23 : GameWorld.PosOnly w2 w3) :
    GameWorld.PosOnly w1 w3 := by
  obtain ⟨p12, n12, e12, t12, q12, c12, d12, r12, i12⟩ := h12
  obtain ⟨p23, n23, e23, t23, q23, c23, d23, r23, i23⟩ := h23
  exact ⟨@forall2_keyed_trans _ Player.SameExceptPos
      (fun _ _ _ h1 h2 => Player.SameExceptPos.transPos h1 h2) _ _ _ p12 p23,
    @forall2_keyed_trans _ NPC.SameExceptPos
      (fun _ _ _ h1 h2 => NPC.SameExceptPos.transNPos h1 h2) _ _ _ n12 n23,
    e23.trans e12, t23.trans t12, q23.trans q12, c23.trans c12, d23.trans d12,
    r23.trans r12, i23.trans i12⟩

theorem GameWorld.refSetPos_posOnly (w : GameWorld) (r : GameWorld.ERef) (v : Vec2) :
    GameWorld.PosOnly w (w.refSetPos r v) := by
  cases r with
  | player id =>
    refine ⟨?_, forall2_keyed_refl NPC.SameExceptPos.reflNPos _, rfl, rfl, rfl, rfl, rfl, rfl, rfl⟩
    exact forall2_listUpdate_of_rel Player.SameExceptPos.reflPos
      (fun p => { p with position := v }) (fun p => rfl) w.players id
  | npc id =>
    refine ⟨forall2_keyed_refl Player.SameExceptPos.reflPos _, ?_, rfl, rfl, rfl, rfl, rfl, rfl, rfl⟩
    exact forall2_listUpdate_of_rel NPC.SameExceptPos.reflNPos
      (fun n => { n with position := v }) (fun n => rfl) w.npcs id

theorem GameWorld.resolveCollision_posOnly (w : GameWorld) (a b : GameWorld.ERef)
    (p1 : Vec2) (r1 : ℝ) (p2 : Vec2) (r2 : ℝ) :
    GameWorld.PosOnly w (w.resolveCollision a b p1 r1 p2 r2) := by
  simp only [GameWorld.resolveCollision]
  split
  · exact GameWorld.PosOnly.transAll (GameWorld.refSetPos_posOnly w a _)
      (GameWorld.refSetPos_posOnly _ b _)
  · exact GameWorld.PosOnly.reflAll w

theorem GameWorld.collideStep_posOnly (w : GameWorld) (a b : GameWorld.ERef) :
    GameWorld.PosOnly w (w.collideStep a b) := by
  rcases h1 : w.refGet a with _ | e1 <;> rcases h2 : w.refGet b with _ | e2 <;>
    simp only [GameWorld.collideStep, h1, h2]
  · exact GameWorld.PosOnly.reflAll w
  · exact GameWorld.PosOnly.reflAll w
  · exact GameWorld.PosOnly.reflAll w
  · split
    · exact GameWorld.resolveCollision_posOnly w a b e1.1 e1.2 e2.1 e2.2
    · exact GameWorld.PosOnly.reflAll w

theorem GameWorld.handleCollisions_posOnly (w : GameWorld) :
    GameWorld.PosOnly w w.handleCollisions :=
  pairsFold_rel GameWorld.PosOnly (fun a => GameWorld.PosOnly.reflAll a)
    (fun _ _ _ h1 h2 => GameWorld.PosOnly.transAll h1 h2) GameWorld.collideStep
    (fun w2 a b => GameWorld.collideStep_posOnly w2 a b) _ w

/-! ## Simple projection frame lemmas for tick phases -/

theorem foldl_preserves_proj {α β γ : Type _} (f : α → β → α) (proj : α → γ)
    (h : ∀ a b, proj (f a b) = proj a) :
    ∀ (l : List β) (a : α), proj (List.foldl f a l) = proj a := by
  intro l
  induction l with
  | nil => intro a; rfl
  | cons b rest ih => intro a; rw [List.foldl_cons, ih, h]

theorem GameWorld.rebuildQuadtree_players (w : GameWorld) :
    (w.rebuildQuadtree).players = w.players := rfl

theorem GameWorld.rebuildQuadtree_essences (w : GameWorld) :
    (w.rebuildQuadtree).essences = w.essences := rfl

theorem GameWorld.rebuildQuadtree_deltas (w : GameWorld) :
    (w.rebuildQuadtree).deltaUpdates = w.deltaUpdates := rfl

theorem GameWorld.spawnEssenceRand_players (w : GameWorld) :
    ((w.spawnEssenceRand).1).players = w.players := rfl

theorem GameWorld.checkEssenceRespawn_players (w : GameWorld) :
    (w.checkEssenceRespawn).players = w.players := by
  unfold GameWorld.checkEssenceRespawn
  split
  · exact foldl_preserves_proj (fun w2 _ => (w2.spawnEssenceRand).1) GameWorld.players
      (fun a b => rfl) _ w
  · rfl

theorem GameWorld.npcsPhase_players (dt : ℝ) (w : GameWorld) :
    (w.npcsPhase dt).players = w.players := rfl

theorem GameWorld.essencesPhase_players (dt : ℝ) (w : GameWorld) :
    (w.essencesPhase dt).players = w.players := rfl

/-! ## Essence-growth frame of the attraction pass -/

theorem Player.EssGrew.reflGrew (p : Player) : Player.EssGrew p p := ⟨[], by simp⟩

theorem Player.EssGrew.transGrew {p q r : Player}
    (h1 : Player.EssGrew p q) (h2 : Player.EssGrew q r) : Player.EssGrew p r := by
  obtain ⟨s1, hs1⟩ := h1
  obtain ⟨s2, hs2⟩ := h2
  exact ⟨s1 ++ s2, by rw [hs2, hs1, List.append_assoc]⟩

theorem Player.SameExceptEss.essGrewOfEss {p q : Player}
    (h : Player.SameExceptEss p q) : Player.EssGrew p q := h.2

theorem Player.SameExceptPos.essGrewOfPos {p q : Player}
    (h : Player.SameExceptPos p q) : Player.EssGrew p q := by
  refine ⟨[], ?_⟩
  rw [h]
  simp

theorem GameWorld.processCandidate_players (w : GameWorld) (pid eid : ℕ) :
    List.Forall₂ (keyedRel Player.SameExceptEss) w.players
      ((w.processCandidate pid eid).players) := by
  rcases hp : listGet w.players pid with _ | player <;>
    rcases he : listGet w.essences eid with _ | e0 <;>
    simp only [GameWorld.processCandidate, hp, he]
  · exact forall2_keyed_refl Player.SameExceptEss.reflEss _
  · exact forall2_keyed_refl Player.SameExceptEss.reflEss _
  · exact forall2_keyed_refl Player.SameExceptEss.reflEss _
  · split
    · apply forall2_listUpdate_const Player.SameExceptEss.reflEss _ _ hp
      exact ⟨rfl, [_], rfl⟩
    · exact forall2_keyed_refl Player.SameExceptEss.reflEss _

theorem GameWorld.attractPlayer_players (w : GameWorld) (pid : ℕ) :
    List.Forall₂ (keyedRel Player.SameExceptEss) w.players ((w.attractPlayer pid).players) := by
  rcases hp : listGet w.players pid with _ | player <;>
    simp only [GameWorld.attractPlayer, hp]
  · exact forall2_keyed_refl Player.SameExceptEss.reflEss _
  · exact foldl_rel
      (fun (a b : GameWorld) =>
        List.Forall₂ (keyedRel Player.SameExceptEss) a.players b.players)
      (fun a => forall2_keyed_refl Player.SameExceptEss.reflEss _)
      (fun _ _ _ h1 h2 => @forall2_keyed_trans _ Player.SameExceptEss
        (fun _ _ _ g1 g2 => Player.SameExceptEss.transEss g1 g2) _ _ _ h1 h2)
      _ (fun w2 eid => GameWorld.processCandidate_players w2 pid eid) _ w

theorem GameWorld.updateEssenceAttraction_players (w : GameWorld) :
    List.Forall₂ (keyedRel Player.SameExceptEss) w.players
      (w.updateEssenceAttraction.players) :=
  foldl_rel
    (fun (a b : GameWorld) =>
      List.Forall₂ (keyedRel Player.SameExceptEss) a.players b.players)
    (fun _ => forall2_keyed_refl Player.SameExceptEss.reflEss _)
    (fun _ _ _ h1 h2 => @forall2_keyed_trans _ Player.SameExceptEss
      (fun _ _ _ g1 g2 => Player.SameExceptEss.transEss g1 g2) _ _ _ h1 h2)
    _ (fun w2 pid => GameWorld.attractPlayer_players w2 pid) _ w

/-! ## Per-player facts about the players phase -/

theorem playerStep_radius (dt : ℝ) (p : Player) :
    ((GameWorld.playerTick dt p).1).radius =
      p.baseRadius + (p.essences.length : ℝ) * ESSENCE_RADIUS_MULTIPLIER := by
  simp only [GameWorld.playerTick, Player.update, Player.hasMovedSignificantly]
  split <;> rfl

theorem playerStep_essences (dt : ℝ) (p : Player) :
    ((GameWorld.playerTick dt p).1).essences = p.essences := by
  simp only [GameWorld.playerTick, Player.update, Player.hasMovedSignificantly]
  split <;> rfl

theorem playerStep_baseRadius (dt : ℝ) (p : Player) :
    ((GameWorld.playerTick dt p).1).baseRadius = p.baseRadius := by
  simp only [GameWorld.playerTick, Player.update, Player.hasMovedSignificantly]
  split <;> rfl

theorem GameWorld.playersPhase_get (dt : ℝ) (w : GameWorld) (pid : ℕ) :
    listGet ((w.playersPhase dt).players) pid =
      (listGet w.players pid).map (fun p => (GameWorld.playerTick dt p).1) := by
  simp only [GameWorld.playersPhase]
  exact listGet_map_value w.players pid (fun p => (GameWorld.playerTick dt p).1)

theorem Player.SameExceptEss.radiusEqOfEss {p q : Player}
    (h : Player.SameExceptEss p q) : q.radius = p.radius := by
  rw [h.1]

theorem Player.SameExceptPos.radiusEqOfPos {p q : Player}
    (h : Player.SameExceptPos p q) : q.radius = p.radius := by
  rw [h]

theorem OptRel.some_left {α : Type _} {R : α → α → Prop} {a : α} {o : Option α}
    (h : OptRel R (some a) o) : ∃ b, o = some b ∧ R a b := by
  cases o with
  | none => exact absurd h (by simp [OptRel])
  | some b => exact ⟨b, rfl, h⟩

theorem forall2_keyed_map {V : Type _} (f : V → V) (l : List (ℕ × V)) :
    List.Forall₂ (keyedRel (fun a b => b = f a)) l (l.map (fun kv => (kv.1, f kv.2))) := by
  induction l with
  | nil => constructor
  | cons kv rest ih => exact List.Forall₂.cons ⟨rfl, rfl⟩ ih

theorem forall2_keyed_comp {V : Type _} {R1 R2 : V → V → Prop}
    {l1 l2 l3 : List (ℕ × V)} (h12 : List.Forall₂ (keyedRel R1) l1 l2)
    (h23 : List.Forall₂ (keyedRel R2) l2 l3) :
    List.Forall₂ (keyedRel (fun a c => ∃ b, R1 a b ∧ R2 b c)) l1 l3 := by
  induction h12 generalizing l3 with
  | nil => cases h23; constructor
  | cons hab hrest ih =>
    cases h23 with
    | cons hbc hrest2 =>
      exact List.Forall₂.cons ⟨hbc.1.trans hab.1, _, hab.2, hbc.2⟩ (ih hrest2)

/-! ## hypot facts -/

theorem hypot_nonneg (x y : ℝ) : 0 ≤ hypot x y := Real.sqrt_nonneg _

theorem hypot_scale (c x y : ℝ) : hypot (c * x) (c * y) = |c| * hypot x y := by
  unfold hypot
  rw [show (c * x) ^ 2 + (c * y) ^ 2 = c ^ 2 * (x ^ 2 + y ^ 2) by ring,
    Real.sqrt_mul (sq_nonneg c), Real.sqrt_sq_eq_abs]

theorem hypot_neg (x y : ℝ) : hypot (-x) (-y) = hypot x y := by
  unfold hypot
  congr 1
  ring

/-! ## Reference access lemmas -/

theorem GameWorld.refGet_refSetPos_self (w : GameWorld) (r : GameWorld.ERef) (v : Vec2)
    {p : Vec2} {rad : ℝ} (h : w.refGet r = some (p, rad)) :
    (w.refSetPos r v).refGet r = some (v, rad) := by
  cases r with
  | player id =>
    rcases hg : listGet w.players id with _ | p0 <;> rw [GameWorld.refGet, hg] at h
    · simp at h
    · simp at h
      rw [GameWorld.refSetPos, GameWorld.refGet, listGet_listUpdate_self, hg]
      simp [h.2]
  | npc id =>
    rcases hg : listGet w.npcs id with _ | p0 <;> rw [GameWorld.refGet, hg] at h
    · simp at h
    · simp at h
      rw [GameWorld.refSetPos, GameWorld.refGet, listGet_listUpdate_self, hg]
      simp [h.2]

theorem GameWorld.refGet_refSetPos_other (w : GameWorld) {r r' : GameWorld.ERef} (v : Vec2)
    (hd : GameWorld.ERef.distinct r r') :
    (w.refSetPos r v).refGet r' = w.refGet r' := by
  cases r with
  | player i =>
    cases r' with
    | player j =>
      have hij : j ≠ i := fun hh => hd hh.symm
      simp only [GameWorld.refSetPos, GameWorld.refGet, listGet_listUpdate_ne _ _ hij]
    | npc j => rfl
  | npc i =>
    cases r' with
    | player j => rfl
    | npc j =>
      have hij : j ≠ i := fun hh => hd hh.symm
      simp only [GameWorld.refSetPos, GameWorld.refGet, listGet_listUpdate_ne _ _ hij]

theorem GameWorld.update_players_eq (dt : ℝ) (w : GameWorld) :
    (GameWorld.update dt w).players =
      (((((({ w with tick := w.tick + 1, deltaUpdates := [] } : GameWorld).playersPhase
        dt).npcsPhase dt).essencesPhase dt).updateEssenceAttraction).handleCollisions).players := by
  unfold GameWorld.update
  rw [GameWorld.rebuildQuadtree_players, GameWorld.checkEssenceRespawn_players]

/-! ## Claim C7 -/

/-- C7: the collision-resolution pass modifies only entity positions —
entry-for-entry every player and NPC keeps all fields except (possibly)
`position`, the essence store is untouched, and the tick's delta-event
list is exactly what it was (no event appended). -/
theorem C7_collisions_position_only (w : GameWorld) :
    (w.handleCollisions).deltaUpdates = w.deltaUpdates ∧
    (w.handleCollisions).essences = w.essences ∧
    List.Forall₂ (keyedRel Player.SameExceptPos) w.players ((w.handleCollisions).players) ∧
    List.Forall₂ (keyedRel NPC.SameExceptPos) w.npcs ((w.handleCollisions).npcs) := by
  obtain ⟨hp, hn, he, _, _, _, hd, _, _⟩ := GameWorld.handleCollisions_posOnly w
  exact ⟨hd, he, hp, hn⟩

/-! ## Claim C8 -/

/-- C8: on an id absent from the player map, `removePlayer` and
`processPlayerInput` return the world unchanged (silent no-ops, no
event); on a present id, `removePlayer` deletes that player's entry,
appends exactly one `playerRemoved` event, and touches nothing else. -/
theorem C8_missing_id_noops (w : GameWorld) (pid : ℕ) (keys : List String) :
    (listGet w.players pid = none →
      w.removePlayer pid = w ∧ w.processPlayerInput pid keys = w) ∧
    (∀ p, listGet w.players pid = some p →
      (w.removePlayer pid).players = listDelete w.players pid ∧
      (w.removePlayer pid).deltaUpdates = w.deltaUpdates ++ [Event.playerRemoved pid] ∧
      (w.removePlayer pid).essences = w.essences ∧ (w.removePlayer pid).npcs = w.npcs ∧
      ((w.players.map Prod.fst).Nodup → listGet ((w.removePlayer pid).players) pid = none)) := by
  constructor
  · intro h
    constructor
    · simp only [GameWorld.removePlayer, h]
    · simp only [GameWorld.processPlayerInput, h]
  · intro p hp
    have hrp : w.removePlayer pid = { w with
        players := listDelete w.players pid,
        deltaUpdates := w.deltaUpdates ++ [Event.playerRemoved pid] } := by
      simp only [GameWorld.removePlayer, hp]
    rw [hrp]
    exact ⟨rfl, rfl, rfl, rfl, fun hnd => listGet_listDelete_self _ _ hnd⟩

/-- Witness for C8 at a concrete world: id 5 is absent (both operations
are no-ops), id 1 is present (one `playerRemoved` event is emitted). -/
theorem C8_missing_id_noops_witness :
    listGet cw.players 5 = none ∧
    (cw.removePlayer 5 = cw ∧ cw.processPlayerInput 5 [] = cw) ∧
    listGet cw.players 1 = some cwPlayer ∧
    (cw.removePlayer 1).deltaUpdates = [Event.playerRemoved 1] := by
  have h5 : listGet cw.players 5 = none := by
    simp [cw, listGet]
  have h1 : listGet cw.players 1 = some cwPlayer := by
    simp [cw, listGet]
  refine ⟨h5, (C8_missing_id_noops cw 5 []).1 h5, h1, ?_⟩
  have h2 := (((C8_missing_id_noops cw 1 []).2 cwPlayer h1)).2.1
  rw [h2]
  rfl

/-! ## Claim C6 -/

/-- C6: when `handleCollisions` processes an overlapping pair with
distinct centers (`0 < dist < r1 + r2`), each entity moves by half the
overlap along the connecting axis, the midpoint is preserved, and the
resulting center distance is exactly `r1 + r2`; when the centers
coincide (`dist = 0`), no correction is applied at all. -/
theorem C6_resolveCollision_separates (w : GameWorld) (a b : GameWorld.ERef)
    (p1 p2 : Vec2) (r1 r2 : ℝ)
    (ha : w.refGet a = some (p1, r1)) (hb : w.refGet b = some (p2, r2))
    (hab : GameWorld.ERef.distinct a b) :
    (0 < hypot (p2.x - p1.x) (p2.y - p1.y) →
      hypot (p2.x - p1.x) (p2.y - p1.y) < r1 + r2 →
      ∃ q1 q2 : Vec2,
        (w.collideStep a b).refGet a = some (q1, r1) ∧
        (w.collideStep a b).refGet b = some (q2, r2) ∧
        hypot (q2.x - q1.x) (q2.y - q1.y) = r1 + r2 ∧
        q1.x + q2.x = p1.x + p2.x ∧ q1.y + q2.y = p1.y + p2.y ∧
        hypot (q1.x - p1.x) (q1.y - p1.y)
          = (r1 + r2 - hypot (p2.x - p1.x) (p2.y - p1.y)) / 2 ∧
        hypot (q2.x - p2.x) (q2.y - p2.y)
          = (r1 + r2 - hypot (p2.x - p1.x) (p2.y - p1.y)) / 2) ∧
    (hypot (p2.x - p1.x) (p2.y - p1.y) = 0 → w.collideStep a b = w) := by
  have hsym : GameWorld.ERef.distinct b a := by
    cases a <;> cases b <;> simp only [GameWorld.ERef.distinct] at hab ⊢ <;>
      first
      | trivial
      | exact fun hh => hab hh.symm
  constructor
  · intro hpos hlt
    set dx := p2.x - p1.x with hdx
    set dy := p2.y - p1.y with hdy
    set dist := hypot dx dy with hdist
    have hne : dist ≠ 0 := ne_of_gt hpos
    simp only [GameWorld.collideStep, ha, hb]
    rw [if_pos hlt]
    simp only [GameWorld.resolveCollision]
    rw [if_pos hpos]
    set ov := (r1 + r2 - dist) / 2 with hov
    set sx := dx / dist * ov with hsx
    set sy := dy / dist * ov with hsy
    have hget1 : ((w.refSetPos a ⟨p1.x - sx, p1.y - sy⟩).refSetPos b
        ⟨p2.x + sx, p2.y + sy⟩).refGet a = some (⟨p1.x - sx, p1.y - sy⟩, r1) := by
      rw [GameWorld.refGet_refSetPos_other _ _ hsym]
      exact GameWorld.refGet_refSetPos_self w a _ ha
    have hget2 : ((w.refSetPos a ⟨p1.x - sx, p1.y - sy⟩).refSetPos b
        ⟨p2.x + sx, p2.y + sy⟩).refGet b = some (⟨p2.x + sx, p2.y + sy⟩, r2) := by
      apply GameWorld.refGet_refSetPos_self
      rw [GameWorld.refGet_refSetPos_other _ _ hab]
      exact hb
    refine ⟨⟨p1.x - sx, p1.y - sy⟩, ⟨p2.x + sx, p2.y + sy⟩, hget1, hget2, ?_, ?_, ?_, ?_, ?_⟩
    · have hx : (p2.x + sx) - (p1.x - sx) = ((r1 + r2) / dist) * dx := by
        rw [hsx, hov]
        field_simp
        ring
      have hy : (p2.y + sy) - (p1.y - sy) = ((r1 + r2) / dist) * dy := by
        rw [hsy, hov]
        field_simp
        ring
      show hypot ((p2.x + sx) - (p1.x - sx)) ((p2.y + sy) - (p1.y - sy)) = r1 + r2
      rw [hx, hy, hypot_scale, ← hdist]
      have hc : 0 ≤ (r1 + r2) / dist := by
        apply div_nonneg _ (le_of_lt hpos)
        linarith [hypot_nonneg dx dy]
      rw [abs_of_nonneg hc]
      field_simp
    · show (p1.x - sx) + (p2.x + sx) = p1.x + p2.x
      ring
    · show (p1.y - sy) + (p2.y + sy) = p1.y + p2.y
      ring
    · have hx : (p1.x - sx) - p1.x = (-(ov / dist)) * dx := by
        rw [hsx]; field_simp; ring
      have hy : (p1.y - sy) - p1.y = (-(ov / dist)) * dy := by
        rw [hsy]; field_simp; ring
      show hypot ((p1.x - sx) - p1.x) ((p1.y - sy) - p1.y) = (r1 + r2 - dist) / 2
      rw [hx, hy, hypot_scale, ← hdist, abs_neg]
      have hc : 0 ≤ ov / dist := by
        apply div_nonneg _ (le_of_lt hpos)
        rw [hov]
        linarith
      rw [abs_of_nonneg hc, hov]
      field_simp
      ring
    · have hx : (p2.x + sx) - p2.x = (ov / dist) * dx := by
        rw [hsx]; field_simp; ring
      have hy : (p2.y + sy) - p2.y = (ov / dist) * dy := by
        rw [hsy]; field_simp; ring
      show hypot ((p2.x + sx) - p2.x) ((p2.y + sy) - p2.y) = (r1 + r2 - dist) / 2
      rw [hx, hy, hypot_scale, ← hdist]
      have hc : 0 ≤ ov / dist := by
        apply div_nonneg _ (le_of_lt hpos)
        rw [hov]
        linarith
      rw [abs_of_nonneg hc, hov]
      field_simp
      ring
  · intro hz
    simp only [GameWorld.collideStep, ha, hb]
    split
    · simp only [GameWorld.resolveCollision]
      rw [if_neg (by rw [hz]; exact lt_irrefl 0)]
    · rfl

/-- Evaluate `hypot` at arguments with a rational hypotenuse. -/
theorem hypot_eval (x y r : ℝ) (hr : 0 ≤ r) (h : x ^ 2 + y ^ 2 = r ^ 2) :
    hypot x y = r := by
  unfold hypot
  rw [h, Real.sqrt_sq hr]

/-- Witness for C6: the spec's scenario of two radius-6 NPCs 4 units
apart; after the collision step they sit exactly 12 units apart. -/
theorem C6_resolveCollision_separates_witness :
    c6w.refGet (.npc 1) = some (⟨100, 100⟩, 6) ∧
    c6w.refGet (.npc 2) = some (⟨104, 100⟩, 6) ∧
    GameWorld.ERef.distinct (.npc 1) (.npc 2) ∧
    (0 : ℝ) < hypot ((⟨104, 100⟩ : Vec2).x - (⟨100, 100⟩ : Vec2).x)
      ((⟨104, 100⟩ : Vec2).y - (⟨100, 100⟩ : Vec2).y) ∧
    hypot ((⟨104, 100⟩ : Vec2).x - (⟨100, 100⟩ : Vec2).x)
      ((⟨104, 100⟩ : Vec2).y - (⟨100, 100⟩ : Vec2).y) < 6 + 6 ∧
    ∃ q1 q2 : Vec2,
      (c6w.collideStep (.npc 1) (.npc 2)).refGet (.npc 1) = some (q1, 6) ∧
      (c6w.collideStep (.npc 1) (.npc 2)).refGet (.npc 2) = some (q2, 6) ∧
      hypot (q2.x - q1.x) (q2.y - q1.y) = 12 := by
  have h4 : hypot ((⟨104, 100⟩ : Vec2).x - (⟨100, 100⟩ : Vec2).x)
      ((⟨104, 100⟩ : Vec2).y - (⟨100, 100⟩ : Vec2).y) = 4 := by
    show hypot (104 - 100) (100 - 100) = 4
    rw [show (104 - 100 : ℝ) = 4 by norm_num, show (100 - 100 : ℝ) = 0 by norm_num]
    exact hypot_eval 4 0 4 (by norm_num) (by norm_num)
  have ha : c6w.refGet (.npc 1) = some (⟨100, 100⟩, 6) := by
    show (listGet c6w.npcs 1).map (fun n => (n.position, n.radius)) = _
    simp [c6w, listGet, c6NPC1, NPC.init, NPC_RADIUS]
  have hb : c6w.refGet (.npc 2) = some (⟨104, 100⟩, 6) := by
    show (listGet c6w.npcs 2).map (fun n => (n.position, n.radius)) = _
    simp [c6w, listGet, c6NPC2, NPC.init, NPC_RADIUS]
  have hd : GameWorld.ERef.distinct (.npc 1) (.npc 2) := by
    show (1 : ℕ) ≠ 2
    norm_num
  obtain ⟨q1, q2, hq1, hq2, hdist, _⟩ :=
    (C6_resolveCollision_separates c6w (.npc 1) (.npc 2) ⟨100, 100⟩ ⟨104, 100⟩ 6 6
      ha hb hd).1 (by rw [h4]; norm_num) (by rw [h4]; norm_num)
  exact ⟨ha, hb, hd, by rw [h4]; norm_num, by rw [h4]; norm_num, q1, q2, hq1, hq2,
    by rw [hdist]; norm_num⟩

/-! ## Claim C2 (amended part) -/

/-- C2 (amended): after every tick, a player's radius equals
`baseRadius + n * ESSENCE_RADIUS_MULTIPLIER` where `n` is the
essence count held when the tick *started* — the per-player radius
recomputation runs before the attraction pass, so on a tick where the
player collects, the radius lags the new count until the next tick. -/
theorem C2_amended_radius_from_pretick_count (w : GameWorld) (dt : ℝ) (pid : ℕ)
    (p : Player) (hp : listGet w.players pid = some p) :
    ∀ q, listGet ((GameWorld.update dt w).players) pid = some q →
      q.radius = p.baseRadius + (p.essences.length : ℝ) * ESSENCE_RADIUS_MULTIPLIER := by
  intro q hq
  rw [GameWorld.update_players_eq] at hq
  have step1 : List.Forall₂ (keyedRel (fun a b => b = (GameWorld.playerTick dt a).1))
      w.players
      ((({ w with tick := w.tick + 1, deltaUpdates := [] } : GameWorld).playersPhase
        dt).players) :=
    forall2_keyed_map (fun p0 => (GameWorld.playerTick dt p0).1) w.players
  have step2 : List.Forall₂ (keyedRel Player.SameExceptEss)
      ((({ w with tick := w.tick + 1, deltaUpdates := [] } : GameWorld).playersPhase
        dt).players)
      ((((({ w with tick := w.tick + 1, deltaUpdates := [] } : GameWorld).playersPhase
        dt).npcsPhase dt).essencesPhase dt).updateEssenceAttraction).players :=
    GameWorld.updateEssenceAttraction_players
      (((({ w with tick := w.tick + 1, deltaUpdates := [] } : GameWorld).playersPhase
        dt).npcsPhase dt).essencesPhase dt)
  have step3 : List.Forall₂ (keyedRel Player.SameExceptPos)
      ((((({ w with tick := w.tick + 1, deltaUpdates := [] } : GameWorld).playersPhase
        dt).npcsPhase dt).essencesPhase dt).updateEssenceAttraction).players
      (((((({ w with tick := w.tick + 1, deltaUpdates := [] } : GameWorld).playersPhase
        dt).npcsPhase dt).essencesPhase dt).updateEssenceAttraction).handleCollisions).players :=
    (GameWorld.handleCollisions_posOnly _).1
  have c123 := forall2_keyed_comp step1 (forall2_keyed_comp step2 step3)
  have hval := forall2_keyed_get c123 pid
  rw [hp, hq] at hval
  simp only [OptRel] at hval
  obtain ⟨b1, hb1, b2, hEss, hPos⟩ := hval
  calc q.radius = b2.radius := Player.SameExceptPos.radiusEqOfPos hPos
    _ = b1.radius := Player.SameExceptEss.radiusEqOfEss hEss
    _ = p.baseRadius + (p.essences.length : ℝ) * ESSENCE_RADIUS_MULTIPLIER := by
        rw [hb1]
        exact playerStep_radius dt p

/-- Witness for the amended C2 at a concrete world. -/
theorem C2_amended_radius_from_pretick_count_witness :
    listGet cw.players 1 = some cwPlayer ∧
    ∀ q, listGet ((GameWorld.update (1 / 10) cw).players) 1 = some q →
      q.radius = cwPlayer.baseRadius +
        (cwPlayer.essences.length : ℝ) * ESSENCE_RADIUS_MULTIPLIER := by
  have h1 : listGet cw.players 1 = some cwPlayer := by
    simp [cw, listGet]
  exact ⟨h1, C2_amended_radius_from_pretick_count cw (1 / 10) 1 cwPlayer h1⟩

/-! ## Claim C4 -/

/-- The power-law penalty at 102400 essences: `(102400/100)^0.3 = 8`. -/
theorem penalty_at_102400 : ((102400 : ℝ) / 100) ^ ((3 : ℝ) / 10) = 8 := by
  have h1 : (102400 : ℝ) / 100 = 1024 := by norm_num
  have h2 : (1024 : ℝ) = (2 : ℝ) ^ ((10 : ℕ) : ℝ) := by
    rw [Real.rpow_natCast]
    norm_num
  rw [h1, h2, ← Real.rpow_mul (by norm_num : (0 : ℝ) ≤ 2)]
  rw [show ((10 : ℕ) : ℝ) * (3 / 10) = ((3 : ℕ) : ℝ) by push_cast; ring]
  rw [Real.rpow_natCast]
  norm_num

/-- Counterexample to C4 as stated: with 102400 collected essences the
recomputed `maxVelocity` is `-750`, far below the claimed floor of
`0.5 * PLAYER_MAX_VELOCITY = 125` — the 50% cap does not exist in the
code. -/
theorem c4Player_len : c4Player.essences.length = 102400 := by
  show (List.replicate 102400 cwEssence).length = 102400
  exact List.length_replicate _ _

theorem C4_counterexample :
    (Player.update 1 c4Player).maxVelocity = -750 ∧
    (Player.update 1 c4Player).maxVelocity < PLAYER_MAX_VELOCITY * (1 / 2) := by
  have hlen : ((c4Player.essences.length : ℕ) : ℝ) = 102400 := by
    rw [c4Player_len]
    norm_num
  have hmv : (Player.update 1 c4Player).maxVelocity = -750 := by
    show PLAYER_MAX_VELOCITY *
      (1 - ((c4Player.essences.length : ℝ) / 100) ^ ((3 : ℝ) / 10) * (1 / 2)) = -750
    rw [hlen, penalty_at_102400]
    unfold PLAYER_MAX_VELOCITY
    norm_num
  refine ⟨hmv, ?_⟩
  rw [hmv]
  unfold PLAYER_MAX_VELOCITY
  norm_num

/-- C4 (amended): `maxVelocity` is monotonically non-increasing in the
essence count, and for counts up to 100 the reduction is capped at 50%
(`maxVelocity ≥ 0.5 * PLAYER_MAX_VELOCITY`); beyond 100 essences the
penalty keeps growing without any cap. -/
theorem C4_amended_monotone_and_capped_below_100 :
    (∀ (p1 p2 : Player) (dt1 dt2 : ℝ), p1.essences.length ≤ p2.essences.length →
      (Player.update dt2 p2).maxVelocity ≤ (Player.update dt1 p1).maxVelocity) ∧
    (∀ (p : Player) (dt : ℝ), p.essences.length ≤ 100 →
      PLAYER_MAX_VELOCITY * (1 / 2) ≤ (Player.update dt p).maxVelocity) := by
  constructor
  · intro p1 p2 dt1 dt2 hle
    show PLAYER_MAX_VELOCITY *
        (1 - ((p2.essences.length : ℝ) / 100) ^ ((3 : ℝ) / 10) * (1 / 2)) ≤
      PLAYER_MAX_VELOCITY *
        (1 - ((p1.essences.length : ℝ) / 100) ^ ((3 : ℝ) / 10) * (1 / 2))
    have hmono : ((p1.essences.length : ℝ) / 100) ^ ((3 : ℝ) / 10) ≤
        ((p2.essences.length : ℝ) / 100) ^ ((3 : ℝ) / 10) := by
      have hcast : (p1.essences.length : ℝ) ≤ (p2.essences.length : ℝ) := by
        exact_mod_cast hle
      exact Real.rpow_le_rpow (by positivity) (by gcongr) (by norm_num)
    unfold PLAYER_MAX_VELOCITY
    nlinarith [hmono]
  · intro p dt hle
    show PLAYER_MAX_VELOCITY * (1 / 2) ≤ PLAYER_MAX_VELOCITY *
      (1 - ((p.essences.length : ℝ) / 100) ^ ((3 : ℝ) / 10) * (1 / 2))
    have hle1 : ((p.essences.length : ℝ) / 100) ^ ((3 : ℝ) / 10) ≤ 1 := by
      apply Real.rpow_le_one
      · positivity
      · rw [div_le_one (by norm_num : (0 : ℝ) < 100)]
        exact_mod_cast hle
      · norm_num
    unfold PLAYER_MAX_VELOCITY
    nlinarith [hle1]

/-- Witness for the amended C4 at concrete players (0 and 100 essences). -/
theorem C4_amended_monotone_and_capped_below_100_witness :
    cwPlayer.essences.length ≤ c4Player.essences.length ∧
    (Player.update 1 c4Player).maxVelocity ≤ (Player.update 1 cwPlayer).maxVelocity ∧
    cwPlayer.essences.length ≤ 100 ∧
    PLAYER_MAX_VELOCITY * (1 / 2) ≤ (Player.update 1 cwPlayer).maxVelocity := by
  have h0 : cwPlayer.essences.length = 0 := rfl
  have hlen : cwPlayer.essences.length ≤ c4Player.essences.length := by
    rw [h0, c4Player_len]
    norm_num
  have hlen2 : cwPlayer.essences.length ≤ 100 := by
    rw [h0]
    norm_num
  exact ⟨hlen,
    C4_amended_monotone_and_capped_below_100.1 cwPlayer c4Player 1 1 hlen,
    hlen2,
    C4_amended_monotone_and_capped_below_100.2 cwPlayer 1 hlen2⟩

/-! ## Claim C1 -/

theorem Quadtree.insertGo_leaf_store (fuel : ℕ) (b : Rect) (me md d : ℕ)
    (ents : List (ℕ × Rect)) (id : ℕ) (bd : Rect)
    (h1 : rectIntersects b bd) (h2 : ents.length < me ∨ md ≤ d) :
    Quadtree.insertGo (fuel + 1) (Quadtree.leaf b me md d ents) id bd
      = (Quadtree.leaf b me md d (listSet ents id bd), true) := by
  show Quadtree.insertGo (Nat.succ fuel) (Quadtree.leaf b me md d ents) id bd = _
  rw [Quadtree.insertGo]
  rw [if_neg (not_not_intro h1), if_pos h2]

/-- Counterexample to C1 as stated: insert id 1 with bounds `(0,0)–(1,1)`
into a fresh world-sized index, then search the region
`(1500,1500)–(1510,1510)`.  The search returns `[1]` even though the
inserted bounds do not intersect the region, because `search` collects
every id stored in a node whose *node region* intersects the query and
never tests the entity's own bounds. -/
theorem C1_counterexample :
    tC1.search regC1 = [1] ∧ ¬ rectIntersects bdC1 regC1 := by
  have hInter1 : rectIntersects worldRect bdC1 := by
    unfold rectIntersects worldRect bdC1 WORLD_W WORLD_H
    push_neg
    norm_num
  have hInter2 : rectIntersects worldRect regC1 := by
    unfold rectIntersects worldRect regC1 WORLD_W WORLD_H
    push_neg
    norm_num
  have ht : tC1 = Quadtree.leaf worldRect 4 8 0 [(1, bdC1)] := by
    unfold tC1 Quadtree.insert Quadtree.make
    rw [show (Quadtree.leaf worldRect 4 8 0 ([] : List (ℕ × Rect))).size +
      (Quadtree.leaf worldRect 4 8 0 ([] : List (ℕ × Rect))).mdBound + 1 = 9 + 1 from rfl]
    rw [Quadtree.insertGo_leaf_store 9 worldRect 4 8 0 [] 1 bdC1 hInter1
      (Or.inl (by norm_num))]
    rfl
  constructor
  · rw [ht, Quadtree.search, if_pos hInter2]
    rfl
  · unfold rectIntersects bdC1 regC1
    rw [not_not]
    left
    norm_num

/-- C1 (amended): for every insert sequence on a fresh world-sized index,
`search(region)` returns exactly the ids stored in the nodes whose node
region intersects the query (the spec's own description of `search`) —
not the set of inserted ids whose bounds intersect the region, which it
can both over- and under-approximate. -/
theorem C1_amended_search_collects_by_node_region
    (inserts : List (ℕ × Rect)) (region : Rect) :
    (buildIndex inserts).search region = (buildIndex inserts).collectIntersecting region :=
  Quadtree.search_eq_collectIntersecting _ region (buildIndex_wf inserts)

/-! ## Claim C3 -/

theorem attractedEssence_radius (player : Player) (e : Essence) :
    (GameWorld.attractedEssence player e).radius = e.radius := by
  by_cases h : hypot (player.position.x - e.position.x) (player.position.y - e.position.y) > 0 <;>
    simp [GameWorld.attractedEssence, h]

theorem GameWorld.spawnEssenceRand_deltas (W : GameWorld) :
    ((W.spawnEssenceRand).1).deltaUpdates =
      W.deltaUpdates ++ [Event.essenceAdded ((W.spawnEssenceRand).2)] := rfl

theorem GameWorld.spawnEssenceRand_essences_get_ne (W : GameWorld) (k : ℕ)
    (hk : k ≠ W.entityIdCounter + 1) :
    listGet (((W.spawnEssenceRand).1).essences) k = listGet W.essences k := by
  show listGet (listSet W.essences (W.entityIdCounter + 1) _) k = _
  exact listGet_listSet_ne _ _ hk

theorem GameWorld.spawnEssenceRand_essences_length (W : GameWorld)
    (hW : listGet W.essences (W.entityIdCounter + 1) = none) :
    (((W.spawnEssenceRand).1).essences).length = W.essences.length + 1 := by
  show (listSet W.essences (W.entityIdCounter + 1) _).length = _
  rw [listSet_of_absent _ _ _ hW]
  simp

/-- C3: when the attraction pass finds a stored essence in contact range
(`distance < player.radius + essence.radius`), the candidate step
(a) appends exactly one record to that player's collected list (count +1),
(b) removes that essence id from the store, (c) emits one
`essenceCollected` event carrying the player id, the essence id and the
resulting count, immediately followed by the replacement's
`essenceAdded`, and (d) spawns exactly one replacement in the same step,
leaving the total stored-essence count unchanged.  The freshness
hypothesis (`hbound`) and key uniqueness (`hnd`) are invariants of every
reachable store (ids come from the monotone allocator). -/
theorem C3_collection_step (w : GameWorld) (pid eid : ℕ) (player : Player) (e : Essence)
    (hp : listGet w.players pid = some player)
    (he : listGet w.essences eid = some e)
    (hdist : hypot (player.position.x - e.position.x) (player.position.y - e.position.y)
      < player.radius + e.radius)
    (hnd : (w.essences.map Prod.fst).Nodup)
    (hbound : ∀ kv ∈ w.essences, kv.1 ≤ w.entityIdCounter) :
    (∀ q, listGet ((w.processCandidate pid eid).players) pid = some q →
      q.essences.length = player.essences.length + 1) ∧
    listGet ((w.processCandidate pid eid).essences) eid = none ∧
    (∃ e2, (w.processCandidate pid eid).deltaUpdates = w.deltaUpdates ++
      [Event.essenceCollected pid eid (player.essences.length + 1),
       Event.essenceAdded e2]) ∧
    ((w.processCandidate pid eid).essences).length = w.essences.length := by
  have heid : eid ≤ w.entityIdCounter := hbound _ (listGet_mem _ _ _ he)
  have hfresh : eid ≠ w.entityIdCounter + 1 := by omega
  have hpc : w.processCandidate pid eid = (({ w with
      players := listUpdate w.players pid (fun _ => player.addEssence (GameWorld.attractedEssence player e)),
      essences := listDelete (listUpdate w.essences eid (fun _ => GameWorld.attractedEssence player e)) eid,
      deltaUpdates := w.deltaUpdates ++
        [Event.essenceCollected pid eid (player.addEssence (GameWorld.attractedEssence player e)).essences.length]
    } : GameWorld).spawnEssenceRand).1 := by
    simp only [GameWorld.processCandidate, hp, he]
    rw [if_pos (by rw [attractedEssence_radius]; exact hdist)]
  rw [hpc]
  have hlen1 : (player.addEssence (GameWorld.attractedEssence player e)).essences.length =
      player.essences.length + 1 := by
    simp [Player.addEssence]
  -- the essences list after the collect, before the respawn
  have hdel_nd : ((listUpdate w.essences eid (fun _ => GameWorld.attractedEssence player e)).map
      Prod.fst).Nodup := by
    rw [keys_listUpdate]
    exact hnd
  have hdel : listGet (listDelete (listUpdate w.essences eid
      (fun _ => GameWorld.attractedEssence player e)) eid) eid = none :=
    listGet_listDelete_self _ _ hdel_nd
  have habsent : listGet (listDelete (listUpdate w.essences eid
      (fun _ => GameWorld.attractedEssence player e)) eid) (w.entityIdCounter + 1) = none := by
    apply listGet_none_of_forall_ne
    intro kv hm
    rcases mem_listUpdate _ _ _ (mem_listDelete _ _ hm) with h1 | ⟨h1, v, hv, _⟩
    · have := hbound _ h1
      omega
    · rw [h1]
      omega
  refine ⟨?_, ?_, ?_, ?_⟩
  · intro q hq
    have hq2 : listGet (listUpdate w.players pid
        (fun _ => player.addEssence (GameWorld.attractedEssence player e))) pid = some q := hq
    rw [listGet_listUpdate_self, hp] at hq2
    have hq3 : some (player.addEssence (GameWorld.attractedEssence player e)) = some q := hq2
    injection hq3 with hq4
    rw [← hq4]
    exact hlen1
  · have h2 := GameWorld.spawnEssenceRand_essences_get_ne
      ({ w with
        players := listUpdate w.players pid (fun _ => player.addEssence (GameWorld.attractedEssence player e)),
        essences := listDelete (listUpdate w.essences eid (fun _ => GameWorld.attractedEssence player e)) eid,
        deltaUpdates := w.deltaUpdates ++
          [Event.essenceCollected pid eid (player.addEssence (GameWorld.attractedEssence player e)).essences.length]
      } : GameWorld) eid hfresh
    rw [h2]
    exact hdel
  · refine ⟨(GameWorld.spawnEssenceRand ({ w with
        players := listUpdate w.players pid (fun _ => player.addEssence (GameWorld.attractedEssence player e)),
        essences := listDelete (listUpdate w.essences eid (fun _ => GameWorld.attractedEssence player e)) eid,
        deltaUpdates := w.deltaUpdates ++
          [Event.essenceCollected pid eid (player.addEssence (GameWorld.attractedEssence player e)).essences.length]
      } : GameWorld)).2, ?_⟩
    rw [GameWorld.spawnEssenceRand_deltas]
    rw [show ({ w with
        players := listUpdate w.players pid (fun _ => player.addEssence (GameWorld.attractedEssence player e)),
        essences := listDelete (listUpdate w.essences eid (fun _ => GameWorld.attractedEssence player e)) eid,
        deltaUpdates := w.deltaUpdates ++
          [Event.essenceCollected pid eid (player.addEssence (GameWorld.attractedEssence player e)).essences.length]
      } : GameWorld).deltaUpdates = w.deltaUpdates ++
        [Event.essenceCollected pid eid
          (player.addEssence (GameWorld.attractedEssence player e)).essences.length] from rfl]
    rw [hlen1, List.append_assoc]
    rfl
  · have h4 := GameWorld.spawnEssenceRand_essences_length
      ({ w with
        players := listUpdate w.players pid (fun _ => player.addEssence (GameWorld.attractedEssence player e)),
        essences := listDelete (listUpdate w.essences eid (fun _ => GameWorld.attractedEssence player e)) eid,
        deltaUpdates := w.deltaUpdates ++
          [Event.essenceCollected pid eid (player.addEssence (GameWorld.attractedEssence player e)).essences.length]
      } : GameWorld) habsent
    rw [h4]
    have hsome : (listGet (listUpdate w.essences eid
        (fun _ => GameWorld.attractedEssence player e)) eid).isSome := by
      rw [listGet_listUpdate_self, he]
      rfl
    have h5 := listDelete_length (listUpdate w.essences eid
      (fun _ => GameWorld.attractedEssence player e)) eid hsome
    rw [listUpdate_length] at h5
    exact h5

/-- Witness for C3 at a concrete world: the player at (1000,1000) with
radius 8 collects the essence at (1001,1000) with radius 3 (distance 1). -/
theorem C3_collection_step_witness :
    listGet cw.players 1 = some cwPlayer ∧
    listGet cw.essences 2 = some cwEssence ∧
    hypot (cwPlayer.position.x - cwEssence.position.x)
      (cwPlayer.position.y - cwEssence.position.y) < cwPlayer.radius + cwEssence.radius ∧
    (∀ q, listGet ((cw.processCandidate 1 2).players) 1 = some q →
      q.essences.length = cwPlayer.essences.length + 1) ∧
    listGet ((cw.processCandidate 1 2).essences) 2 = none ∧
    ((cw.processCandidate 1 2).essences).length = cw.essences.length := by
  have hp : listGet cw.players 1 = some cwPlayer := by
    simp [cw, listGet]
  have he : listGet cw.essences 2 = some cwEssence := by
    simp [cw, listGet]
  have hhyp : hypot (cwPlayer.position.x - cwEssence.position.x)
      (cwPlayer.position.y - cwEssence.position.y) = 1 := by
    show hypot (1000 - 1001) (1000 - 1000) = 1
    rw [show (1000 - 1001 : ℝ) = -1 by norm_num, show (1000 - 1000 : ℝ) = 0 by norm_num]
    exact hypot_eval (-1) 0 1 (by norm_num) (by norm_num)
  have hdist : hypot (cwPlayer.position.x - cwEssence.position.x)
      (cwPlayer.position.y - cwEssence.position.y) < cwPlayer.radius + cwEssence.radius := by
    rw [hhyp]
    show (1 : ℝ) < PLAYER_BASE_RADIUS + 3
    norm_num [PLAYER_BASE_RADIUS]
  have hnd : (cw.essences.map Prod.fst).Nodup := by
    simp [cw]
  have hbound : ∀ kv ∈ cw.essences, kv.1 ≤ cw.entityIdCounter := by
    intro kv hm
    simp only [cw] at hm ⊢
    simp at hm
    rw [hm]
  obtain ⟨c1, c2, _, c4⟩ := C3_collection_step cw 1 2 cwPlayer cwEssence hp he hdist hnd hbound
  exact ⟨hp, he, hdist, c1, c2, c4⟩

/-! ## Claim C2 (counterexample) -/

/-- Counterexample to C2 as stated: in `cw` the player collects one
essence during the tick's attraction pass, so its essence count ends the
tick at 1, but its radius is still `8 ≠ 8 + 1 × 0.3` — the radius is
recomputed before the attraction pass and lags the collection. -/
theorem C2_counterexample :
    ∃ q, listGet ((GameWorld.update (1 / 10) cw).players) 1 = some q ∧
      q.essences.length = 1 ∧ q.radius = 8 ∧
      q.radius ≠ PLAYER_BASE_RADIUS + ((1 : ℕ) : ℝ) * ESSENCE_RADIUS_MULTIPLIER := by
  -- the per-player update leaves the player numerically unchanged except
  -- for the recomputed radius (8) and maxVelocity (250)
  have hu : Player.update (1 / 10) cwPlayer = cwP2 := by
    unfold Player.update
    norm_num [cwP2, cwPlayer, Player.init, PLAYER_BASE_RADIUS, PLAYER_MAX_VELOCITY,
      ESSENCE_RADIUS_MULTIPLIER, WORLD_W, WORLD_H, min_def, max_def,
      Real.zero_rpow, Player.mk.injEq, Vec2.mk.injEq]
  have hmv : ¬ (hypot ((Player.update (1 / 10) cwPlayer).position.x -
      (Player.update (1 / 10) cwPlayer).lastSignificantPosition.x)
      ((Player.update (1 / 10) cwPlayer).position.y -
      (Player.update (1 / 10) cwPlayer).lastSignificantPosition.y) >
      POSITION_UPDATE_THRESHOLD) := by
    rw [hu]
    show ¬ (hypot ((1000 : ℝ) - 1000) ((1000 : ℝ) - 1000) > POSITION_UPDATE_THRESHOLD)
    rw [show ((1000 : ℝ) - 1000) = 0 by norm_num]
    rw [hypot_eval 0 0 0 (le_refl 0) (by norm_num)]
    norm_num [POSITION_UPDATE_THRESHOLD]
  have htick : GameWorld.playerTick (1 / 10) cwPlayer = (Player.update (1 / 10) cwPlayer, none) := by
    unfold GameWorld.playerTick Player.hasMovedSignificantly
    rw [if_neg hmv]
    rfl
  -- the players phase turns cw (tick-advanced) into cwMid
  have hW2 : GameWorld.playersPhase (1 / 10)
      ({ cw with tick := cw.tick + 1, deltaUpdates := [] } : GameWorld) = cwMid := by
    have e1 : GameWorld.playersPhase (1 / 10)
        ({ cw with tick := cw.tick + 1, deltaUpdates := [] } : GameWorld)
        = { cw with
            tick := 1,
            players := List.map (fun kv => (kv.1, (GameWorld.playerTick (1 / 10) kv.2).1))
              [(1, cwPlayer)],
            deltaUpdates := List.filterMap (fun kv => (GameWorld.playerTick (1 / 10) kv.2).2)
              [(1, cwPlayer)] } := rfl
    rw [e1]
    rw [show List.map (fun kv => (kv.1, (GameWorld.playerTick (1 / 10) kv.2).1))
        [((1 : ℕ), cwPlayer)] = [(1, Player.update (1 / 10) cwPlayer)] by
      simp only [List.map, htick]]
    rw [show List.filterMap (fun kv => (GameWorld.playerTick (1 / 10) kv.2).2)
        [((1 : ℕ), cwPlayer)] = [] by
      simp only [List.filterMap, htick]]
    rw [hu]
    rfl
  -- the NPC and essence phases leave cwMid unchanged (no NPCs; the lone
  -- essence is numerically a fixed point of Essence.update)
  have hE2 : Essence.update (1 / 10) cwEssence = cwEssence := by
    unfold Essence.update
    norm_num [cwEssence, WORLD_W, WORLD_H, min_def, max_def, Essence.mk.injEq, Vec2.mk.injEq]
  have hW4 : ((cwMid.npcsPhase (1 / 10)).essencesPhase (1 / 10)) = cwMid := by
    have e2 : (cwMid.npcsPhase (1 / 10)).essencesPhase (1 / 10)
        = { cwMid with
            essences := List.map (fun kv => (kv.1, Essence.update (1 / 10) kv.2))
              [(2, cwEssence)] } := rfl
    rw [e2]
    rw [show List.map (fun kv => (kv.1, Essence.update (1 / 10) kv.2))
        [((2 : ℕ), cwEssence)] = [(2, cwEssence)] by
      simp only [List.map, hE2]]
    rfl
  -- the attraction pass: quadtree search around the player finds [1, 2]
  have hsearch : cwMid.quadtree.search ⟨cwP2.position.x - ESSENCE_ATTRACTION_RANGE,
      cwP2.position.y - ESSENCE_ATTRACTION_RANGE,
      ESSENCE_ATTRACTION_RANGE * 2, ESSENCE_ATTRACTION_RANGE * 2⟩ = [1, 2] := by
    have hint : rectIntersects worldRect ⟨cwP2.position.x - ESSENCE_ATTRACTION_RANGE,
        cwP2.position.y - ESSENCE_ATTRACTION_RANGE,
        ESSENCE_ATTRACTION_RANGE * 2, ESSENCE_ATTRACTION_RANGE * 2⟩ := by
      unfold rectIntersects
      push_neg
      norm_num [cwP2, cwPlayer, Player.init, ESSENCE_ATTRACTION_RANGE, worldRect,
        WORLD_W, WORLD_H]
    show (Quadtree.leaf worldRect 4 8 0
      [(1, cwPlayer.getBounds), (2, cwEssence.getBounds)]).search _ = [1, 2]
    rw [Quadtree.search, if_pos hint]
    rfl
  -- candidate 1 is the player's own id: not an essence, skipped
  have hpc1 : cwMid.processCandidate 1 1 = cwMid := by
    have hgp : listGet cwMid.players 1 = some cwP2 := rfl
    have hge : listGet cwMid.essences 1 = none := rfl
    simp only [GameWorld.processCandidate, hgp, hge]
  -- candidate 2 is collected
  have hd12 : hypot (cwP2.position.x - cwEssence.position.x)
      (cwP2.position.y - cwEssence.position.y) = 1 := by
    show hypot (1000 - 1001) (1000 - 1000) = 1
    rw [show (1000 - 1001 : ℝ) = -1 by norm_num, show (1000 - 1000 : ℝ) = 0 by norm_num]
    exact hypot_eval (-1) 0 1 (by norm_num) (by norm_num)
  have hpc2 : cwMid.processCandidate 1 2 = (({ cwMid with
      players := listUpdate cwMid.players 1
        (fun _ => cwP2.addEssence (GameWorld.attractedEssence cwP2 cwEssence)),
      essences := listDelete (listUpdate cwMid.essences 2
        (fun _ => GameWorld.attractedEssence cwP2 cwEssence)) 2,
      deltaUpdates := cwMid.deltaUpdates ++
        [Event.essenceCollected 1 2
          (cwP2.addEssence (GameWorld.attractedEssence cwP2 cwEssence)).essences.length]
    } : GameWorld).spawnEssenceRand).1 := by
    have hgp : listGet cwMid.players 1 = some cwP2 := rfl
    have hge : listGet cwMid.essences 2 = some cwEssence := rfl
    have hcond : hypot (cwP2.position.x - cwEssence.position.x)
        (cwP2.position.y - cwEssence.position.y) <
        cwP2.radius + (GameWorld.attractedEssence cwP2 cwEssence).radius := by
      rw [hd12, attractedEssence_radius]
      show (1 : ℝ) < cwP2.radius + cwEssence.radius
      norm_num [cwP2, cwPlayer, Player.init, PLAYER_BASE_RADIUS, cwEssence]
    simp only [GameWorld.processCandidate, hgp, hge]
    rw [if_pos hcond]
  -- assembling the attraction pass
  have hattr : cwMid.updateEssenceAttraction = cwMid.processCandidate 1 2 := by
    show (cwMid.players.map Prod.fst).foldl GameWorld.attractPlayer cwMid =
      cwMid.processCandidate 1 2
    rw [show cwMid.players.map Prod.fst = [1] from rfl]
    show GameWorld.attractPlayer cwMid 1 = cwMid.processCandidate 1 2
    have hgp : listGet cwMid.players 1 = some cwP2 := rfl
    simp only [GameWorld.attractPlayer, hgp]
    rw [hsearch]
    show (cwMid.processCandidate 1 1).processCandidate 1 2 = cwMid.processCandidate 1 2
    rw [hpc1]
  -- the final lookup
  refine ⟨cwP2.addEssence (GameWorld.attractedEssence cwP2 cwEssence), ?_, ?_, ?_, ?_⟩
  · rw [GameWorld.update_players_eq, hW2, hW4, hattr, hpc2]
    rfl
  · show (cwP2.essences ++ [GameWorld.attractedEssence cwP2 cwEssence]).length = 1
    rfl
  · show cwP2.radius = 8
    rfl
  · show cwP2.radius ≠ PLAYER_BASE_RADIUS + ((1 : ℕ) : ℝ) * ESSENCE_RADIUS_MULTIPLIER
    norm_num [cwP2, PLAYER_BASE_RADIUS, ESSENCE_RADIUS_MULTIPLIER]

/-! ## Claim C5 -/

/-- Counterexample to C5 as stated: in `c5w`, the overlapping NPC pushes
the wall-hugging player to `x = 3` during the collision-resolution pass,
and nothing re-clamps afterwards, so the post-tick player position
violates `radius ≤ x` (`3 < 8`). -/
theorem C5_counterexample :
    ∃ q, listGet ((GameWorld.update (1 / 10) c5w).players) 1 = some q ∧
      q.position.x = 3 ∧ q.radius = 8 ∧ ¬ (q.radius ≤ q.position.x) := by
  have hu5 : Player.update (1 / 10) c5Player = c5P2 := by
    unfold Player.update
    norm_num [c5P2, c5Player, Player.init, PLAYER_BASE_RADIUS, PLAYER_MAX_VELOCITY,
      ESSENCE_RADIUS_MULTIPLIER, WORLD_W, WORLD_H, min_def, max_def,
      Real.zero_rpow, Player.mk.injEq, Vec2.mk.injEq]
  have hmv5 : ¬ (hypot ((Player.update (1 / 10) c5Player).position.x -
      (Player.update (1 / 10) c5Player).lastSignificantPosition.x)
      ((Player.update (1 / 10) c5Player).position.y -
      (Player.update (1 / 10) c5Player).lastSignificantPosition.y) >
      POSITION_UPDATE_THRESHOLD) := by
    rw [hu5]
    show ¬ (hypot ((8 : ℝ) - 8) ((1000 : ℝ) - 1000) > POSITION_UPDATE_THRESHOLD)
    rw [show ((8 : ℝ) - 8) = 0 by norm_num, show ((1000 : ℝ) - 1000) = 0 by norm_num]
    rw [hypot_eval 0 0 0 (le_refl 0) (by norm_num)]
    norm_num [POSITION_UPDATE_THRESHOLD]
  have htick5 : GameWorld.playerTick (1 / 10) c5Player =
      (Player.update (1 / 10) c5Player, none) := by
    unfold GameWorld.playerTick Player.hasMovedSignificantly
    rw [if_neg hmv5]
    rfl
  have hW25 : GameWorld.playersPhase (1 / 10)
      ({ c5w with tick := c5w.tick + 1, deltaUpdates := [] } : GameWorld) = c5A := by
    have e1 : GameWorld.playersPhase (1 / 10)
        ({ c5w with tick := c5w.tick + 1, deltaUpdates := [] } : GameWorld)
        = { c5w with
            tick := 1,
            players := List.map (fun kv => (kv.1, (GameWorld.playerTick (1 / 10) kv.2).1))
              [(1, c5Player)],
            deltaUpdates := List.filterMap (fun kv => (GameWorld.playerTick (1 / 10) kv.2).2)
              [(1, c5Player)] } := rfl
    rw [e1]
    rw [show List.map (fun kv => (kv.1, (GameWorld.playerTick (1 / 10) kv.2).1))
        [((1 : ℕ), c5Player)] = [(1, Player.update (1 / 10) c5Player)] by
      simp only [List.map, htick5]]
    rw [show List.filterMap (fun kv => (GameWorld.playerTick (1 / 10) kv.2).2)
        [((1 : ℕ), c5Player)] = [] by
      simp only [List.filterMap, htick5]]
    rw [hu5]
    rfl
  have hypot00 : hypot 0 0 = 0 := hypot_eval 0 0 0 (le_refl 0) (by norm_num)
  have hN5 : NPC.update (1 / 10) rng0 0 c5NPC = (c5N2, 0) := by
    unfold NPC.update
    norm_num [c5N2, c5NPC, NPC.init, NPC_RADIUS, NPC_HEALTH, NPC_SPEED, WORLD_W, WORLD_H,
      hypot00, NPC.mk.injEq, Vec2.mk.injEq, Prod.mk.injEq]
  have hnpc5 : c5A.npcsPhase (1 / 10) = c5Mid := by
    have e2 : c5A.npcsPhase (1 / 10) = { c5A with
        npcs := [] ++ [(2, (NPC.update (1 / 10) rng0 0 c5NPC).1)],
        rngIdx := (NPC.update (1 / 10) rng0 0 c5NPC).2 } := rfl
    rw [e2, hN5]
    rfl
  have hess5 : c5Mid.essencesPhase (1 / 10) = c5Mid := rfl
  have hsearch5 : c5Mid.quadtree.search ⟨c5P2.position.x - ESSENCE_ATTRACTION_RANGE,
      c5P2.position.y - ESSENCE_ATTRACTION_RANGE,
      ESSENCE_ATTRACTION_RANGE * 2, ESSENCE_ATTRACTION_RANGE * 2⟩ = [1, 2] := by
    have hint : rectIntersects worldRect ⟨c5P2.position.x - ESSENCE_ATTRACTION_RANGE,
        c5P2.position.y - ESSENCE_ATTRACTION_RANGE,
        ESSENCE_ATTRACTION_RANGE * 2, ESSENCE_ATTRACTION_RANGE * 2⟩ := by
      unfold rectIntersects
      push_neg
      norm_num [c5P2, c5Player, Player.init, ESSENCE_ATTRACTION_RANGE, worldRect,
        WORLD_W, WORLD_H]
    show (Quadtree.leaf worldRect 4 8 0
      [(1, c5Player.getBounds), (2, c5NPC.getBounds)]).search _ = [1, 2]
    rw [Quadtree.search, if_pos hint]
    rfl
  have hattr5 : c5Mid.updateEssenceAttraction = c5Mid := by
    show (c5Mid.players.map Prod.fst).foldl GameWorld.attractPlayer c5Mid = c5Mid
    rw [show c5Mid.players.map Prod.fst = [1] from rfl]
    show GameWorld.attractPlayer c5Mid 1 = c5Mid
    have hgp : listGet c5Mid.players 1 = some c5P2 := rfl
    simp only [GameWorld.attractPlayer, hgp]
    rw [hsearch5]
    rfl
  have hg1 : c5Mid.refGet (.player 1) = some (c5P2.position, c5P2.radius) := rfl
  have hg2 : c5Mid.refGet (.npc 2) = some (c5N2.position, c5N2.radius) := rfl
  have h14 : hypot (c5N2.position.x - c5P2.position.x)
      (c5N2.position.y - c5P2.position.y) = 4 := by
    show hypot (12 - 8) (1000 - 1000) = 4
    rw [show (12 - 8 : ℝ) = 4 by norm_num, show (1000 - 1000 : ℝ) = 0 by norm_num]
    exact hypot_eval 4 0 4 (by norm_num) (by norm_num)
  have hcond14 : hypot (c5N2.position.x - c5P2.position.x)
      (c5N2.position.y - c5P2.position.y) < c5P2.radius + c5N2.radius := by
    rw [h14]
    show (4 : ℝ) < c5P2.radius + c5N2.radius
    norm_num [c5P2, c5N2, c5Player, c5NPC, Player.init, NPC.init, PLAYER_BASE_RADIUS,
      NPC_RADIUS]
  have hpos14 : hypot (c5N2.position.x - c5P2.position.x)
      (c5N2.position.y - c5P2.position.y) > 0 := by
    rw [h14]
    norm_num
  rw [GameWorld.update_players_eq, hW25, hnpc5, hess5, hattr5,
    show c5Mid.handleCollisions = c5Mid.collideStep (.player 1) (.npc 2) from rfl]
  simp only [GameWorld.collideStep, hg1, hg2]
  rw [if_pos hcond14]
  simp only [GameWorld.resolveCollision]
  rw [if_pos hpos14]
  refine ⟨_, rfl, ?_, ?_, ?_⟩
  · show c5P2.position.x - (c5N2.position.x - c5P2.position.x) /
      hypot (c5N2.position.x - c5P2.position.x) (c5N2.position.y - c5P2.position.y) *
      ((c5P2.radius + c5N2.radius - hypot (c5N2.position.x - c5P2.position.x)
        (c5N2.position.y - c5P2.position.y)) / 2) = 3
    rw [h14]
    norm_num [c5P2, c5N2, c5Player, c5NPC, Player.init, NPC.init, PLAYER_BASE_RADIUS,
      NPC_RADIUS]
  · show c5P2.radius = 8
    rfl
  · show ¬ (c5P2.radius ≤ c5P2.position.x - (c5N2.position.x - c5P2.position.x) /
      hypot (c5N2.position.x - c5P2.position.x) (c5N2.position.y - c5P2.position.y) *
      ((c5P2.radius + c5N2.radius - hypot (c5N2.position.x - c5P2.position.x)
        (c5N2.position.y - c5P2.position.y)) / 2))
    rw [h14]
    norm_num [c5P2, c5N2, c5Player, c5NPC, Player.init, NPC.init, PLAYER_BASE_RADIUS,
      NPC_RADIUS]

/-- One axis of the NPC edge wrap: the two sequential `if`s land the
coordinate inside the wrap window `[-r, WORLD_W + r]`. -/
theorem wrap_bounds (x r : ℝ) (hr : 0 ≤ r) :
    -r ≤ (if (if x < -r then WORLD_W + r else x) > WORLD_W + r then -r
      else (if x < -r then WORLD_W + r else x)) ∧
    (if (if x < -r then WORLD_W + r else x) > WORLD_W + r then -r
      else (if x < -r then WORLD_W + r else x)) ≤ WORLD_W + r := by
  have hW : (0 : ℝ) ≤ WORLD_W := by norm_num [WORLD_W]
  by_cases h1 : x < -r
  · simp only [if_pos h1]
    rw [if_neg (lt_irrefl _)]
    constructor <;> linarith
  · simp only [if_neg h1]
    push_neg at h1
    by_cases h2 : x > WORLD_W + r
    · rw [if_pos h2]
      constructor <;> linarith
    · rw [if_neg h2]
      push_neg at h2
      constructor <;> linarith

/-- C5 (amended): immediately after the per-kind update phase, player
positions are clamped into `[r, worldSize - r]` for the radius `r` held
entering the update, essence positions into `[0, worldSize]`, and NPC
positions lie in the wrap window `[-radius, worldSize + radius]`; the
collision-resolution pass that runs afterwards can move players and NPCs
without re-clamping (see the counterexample), so the claimed bounds need
not hold for final post-tick positions. -/
theorem C5_amended_perkind_bounds :
    (∀ (p : Player) (dt : ℝ), 2 * p.radius ≤ WORLD_W →
      p.radius ≤ (Player.update dt p).position.x ∧
      (Player.update dt p).position.x ≤ WORLD_W - p.radius ∧
      p.radius ≤ (Player.update dt p).position.y ∧
      (Player.update dt p).position.y ≤ WORLD_H - p.radius) ∧
    (∀ (e : Essence) (dt : ℝ),
      0 ≤ (Essence.update dt e).position.x ∧ (Essence.update dt e).position.x ≤ WORLD_W ∧
      0 ≤ (Essence.update dt e).position.y ∧ (Essence.update dt e).position.y ≤ WORLD_H) ∧
    (∀ (n : NPC) (dt : ℝ) (rng : ℕ → ℝ) (i : ℕ), 0 ≤ n.radius →
      -n.radius ≤ ((NPC.update dt rng i n).1).position.x ∧
      ((NPC.update dt rng i n).1).position.x ≤ WORLD_W + n.radius ∧
      -n.radius ≤ ((NPC.update dt rng i n).1).position.y ∧
      ((NPC.update dt rng i n).1).position.y ≤ WORLD_H + n.radius) := by
  have hWH : WORLD_H = WORLD_W := by norm_num [WORLD_W, WORLD_H]
  refine ⟨?_, ?_, ?_⟩
  · intro p dt hr
    refine ⟨le_max_left _ _, max_le (by linarith) (min_le_left _ _),
      le_max_left _ _, max_le (by rw [hWH]; linarith) (min_le_left _ _)⟩
  · intro e dt
    have hW : (0 : ℝ) ≤ WORLD_W := by norm_num [WORLD_W]
    have hH : (0 : ℝ) ≤ WORLD_H := by norm_num [WORLD_H]
    exact ⟨le_max_left _ _, max_le hW (min_le_left _ _),
      le_max_left _ _, max_le hH (min_le_left _ _)⟩
  · intro n dt rng i hr
    simp only [NPC.update]
    by_cases hre : n.aiTimer + dt ≥ n.aiUpdateInterval
    · rw [if_pos hre]
      have hx := wrap_bounds (n.position.x +
        (n.velocity.x + (Real.cos (rng i * (2 * Real.pi)) * n.speed - n.velocity.x) * (1 / 10)) * dt)
        n.radius hr
      have hy := wrap_bounds (n.position.y +
        (n.velocity.y + (Real.sin (rng i * (2 * Real.pi)) * n.speed - n.velocity.y) * (1 / 10)) * dt)
        n.radius hr
      rw [hWH]
      exact ⟨hx.1, hx.2, hy.1, hy.2⟩
    · rw [if_neg hre]
      have hx := wrap_bounds (n.position.x +
        (n.velocity.x + (n.targetVelocity.x - n.velocity.x) * (1 / 10)) * dt) n.radius hr
      have hy := wrap_bounds (n.position.y +
        (n.velocity.y + (n.targetVelocity.y - n.velocity.y) * (1 / 10)) * dt) n.radius hr
      rw [hWH]
      exact ⟨hx.1, hx.2, hy.1, hy.2⟩

/-- Witness for the amended C5 at concrete entities. -/
theorem C5_amended_perkind_bounds_witness :
    2 * cwPlayer.radius ≤ WORLD_W ∧
    (cwPlayer.radius ≤ (Player.update 1 cwPlayer).position.x ∧
      (Player.update 1 cwPlayer).position.x ≤ WORLD_W - cwPlayer.radius ∧
      cwPlayer.radius ≤ (Player.update 1 cwPlayer).position.y ∧
      (Player.update 1 cwPlayer).position.y ≤ WORLD_H - cwPlayer.radius) ∧
    (0 : ℝ) ≤ c5NPC.radius ∧
    (-c5NPC.radius ≤ ((NPC.update 1 rng0 0 c5NPC).1).position.x ∧
      ((NPC.update 1 rng0 0 c5NPC).1).position.x ≤ WORLD_W + c5NPC.radius ∧
      -c5NPC.radius ≤ ((NPC.update 1 rng0 0 c5NPC).1).position.y ∧
      ((NPC.update 1 rng0 0 c5NPC).1).position.y ≤ WORLD_H + c5NPC.radius) := by
  have h1 : 2 * cwPlayer.radius ≤ WORLD_W := by
    show 2 * PLAYER_BASE_RADIUS ≤ WORLD_W
    norm_num [PLAYER_BASE_RADIUS, WORLD_W]
  have h2 : (0 : ℝ) ≤ c5NPC.radius := by
    show (0 : ℝ) ≤ NPC_RADIUS
    norm_num [NPC_RADIUS]
  exact ⟨h1, C5_amended_perkind_bounds.1 cwPlayer 1 h1, h2,
    C5_amended_perkind_bounds.2.2 c5NPC 1 rng0 0 h2⟩

/-! ## Claim C9 -/

/-- Generic fold preservation: if each step keeps `P` whenever the folded
element satisfies `Q`, folding over a list of `Q`-elements keeps `P`. -/
theorem foldl_pred_mem {α β : Type _} (P : α → Prop) (Q : β → Prop) (f : α → β → α)
    (hstep : ∀ a b, Q b → P a → P (f a b)) :
    ∀ (l : List β), (∀ b ∈ l, Q b) → ∀ a, P a → P (l.foldl f a) := by
  intro l
  induction l with
  | nil => intro _ a ha; exact ha
  | cons b rest ih =>
    intro hQ a ha
    rw [List.foldl_cons]
    exact ih (fun b' hb' => hQ b' (List.mem_cons_of_mem _ hb'))
      (f a b) (hstep a b (hQ b (List.mem_cons_self _ _)) ha)

theorem GameWorld.spawnEssenceRand_essences_get_self (W : GameWorld) :
    listGet (((W.spawnEssenceRand).1).essences) (W.entityIdCounter + 1) =
      some ((W.spawnEssenceRand).2) := by
  show listGet (listSet W.essences (W.entityIdCounter + 1) _) _ = _
  exact listGet_listSet_self _ _ _

theorem GameWorld.spawnEssenceRand_velocity (W : GameWorld) :
    ((W.spawnEssenceRand).2).velocity = ⟨0, 0⟩ := rfl

theorem GameWorld.spawnEssenceRand_freshInv {c : ℕ} {qt : Quadtree} {w : GameWorld}
    (h : GameWorld.FreshInv c qt w) : GameWorld.FreshInv c qt ((w.spawnEssenceRand).1) := by
  obtain ⟨h1, h2, h3, h4⟩ := h
  refine ⟨h1, Nat.le_succ_of_le h2, ?_, ?_⟩
  · intro ev hev
    rw [GameWorld.spawnEssenceRand_deltas] at hev
    rcases List.mem_append.mp hev with hev | hev
    · exact h3 ev hev
    · rw [List.mem_singleton.mp hev]
      trivial
  · intro eid e hget hgt
    by_cases hk : eid = w.entityIdCounter + 1
    · subst hk
      rw [GameWorld.spawnEssenceRand_essences_get_self] at hget
      injection hget with hh
      rw [← hh]
      exact GameWorld.spawnEssenceRand_velocity w
    · rw [GameWorld.spawnEssenceRand_essences_get_ne w eid hk] at hget
      exact h4 eid e hget hgt

theorem GameWorld.processCandidate_freshInv {c : ℕ} {qt : Quadtree} {w : GameWorld}
    (pid eid : ℕ) (heid : eid ≤ c) (h : GameWorld.FreshInv c qt w) :
    GameWorld.FreshInv c qt (w.processCandidate pid eid) := by
  obtain ⟨h1, h2, h3, h4⟩ := h
  rcases hp : listGet w.players pid with _ | player <;>
    rcases he : listGet w.essences eid with _ | e0 <;>
    simp only [GameWorld.processCandidate, hp, he]
  · exact ⟨h1, h2, h3, h4⟩
  · exact ⟨h1, h2, h3, h4⟩
  · exact ⟨h1, h2, h3, h4⟩
  · split
    · apply GameWorld.spawnEssenceRand_freshInv
      refine ⟨h1, h2, ?_, ?_⟩
      · intro ev hev
        rcases List.mem_append.mp hev with hev | hev
        · exact h3 ev hev
        · rw [List.mem_singleton.mp hev]
          exact heid
      · intro k e hget hgt
        have hk : k ≠ eid := by
          intro hh
          rw [hh] at hgt
          exact absurd heid (not_le.mpr hgt)
        rw [listGet_listDelete_ne _ hk, listGet_listUpdate_ne _ _ hk] at hget
        exact h4 k e hget hgt
    · refine ⟨h1, h2, h3, ?_⟩
      intro k e hget hgt
      have hk : k ≠ eid := by
        intro hh
        rw [hh] at hgt
        exact absurd heid (not_le.mpr hgt)
      rw [listGet_listUpdate_ne _ _ hk] at hget
      exact h4 k e hget hgt

theorem GameWorld.attractPlayer_freshInv {c : ℕ} {qt : Quadtree} {w : GameWorld}
    (pid : ℕ) (hq : ∀ i ∈ qt.storedIds, i ≤ c) (h : GameWorld.FreshInv c qt w) :
    GameWorld.FreshInv c qt (w.attractPlayer pid) := by
  rcases hp : listGet w.players pid with _ | player <;>
    simp only [GameWorld.attractPlayer, hp]
  · exact h
  · have hcand : ∀ i ∈ w.quadtree.search
        ⟨player.position.x - ESSENCE_ATTRACTION_RANGE,
         player.position.y - ESSENCE_ATTRACTION_RANGE,
         ESSENCE_ATTRACTION_RANGE * 2, ESSENCE_ATTRACTION_RANGE * 2⟩, i ≤ c := by
      intro i hi
      rw [h.1] at hi
      exact hq i (Quadtree.mem_search_storedIds qt _ i hi)
    exact foldl_pred_mem (GameWorld.FreshInv c qt) (fun i => i ≤ c)
      (fun w2 eid => w2.processCandidate pid eid)
      (fun w2 eid hQ hP => GameWorld.processCandidate_freshInv pid eid hQ hP)
      _ hcand w h

theorem GameWorld.updateEssenceAttraction_freshInv {c : ℕ} {qt : Quadtree} {w : GameWorld}
    (hq : ∀ i ∈ qt.storedIds, i ≤ c) (h : GameWorld.FreshInv c qt w) :
    GameWorld.FreshInv c qt w.updateEssenceAttraction :=
  foldl_pred_mem (GameWorld.FreshInv c qt) (fun _ => True) GameWorld.attractPlayer
    (fun _ pid _ hP => GameWorld.attractPlayer_freshInv pid hq hP)
    _ (fun _ _ => trivial) w h

theorem GameWorld.handleCollisions_freshInv {c : ℕ} {qt : Quadtree} {w : GameWorld}
    (h : GameWorld.FreshInv c qt w) : GameWorld.FreshInv c qt w.handleCollisions := by
  obtain ⟨hpl, hnp, hess, htk, hqt, hcnt, hdel, hrng, hidx⟩ :=
    GameWorld.handleCollisions_posOnly w
  obtain ⟨h1, h2, h3, h4⟩ := h
  refine ⟨by rw [hqt, h1], by rw [hcnt]; exact h2, ?_, ?_⟩
  · intro ev hev
    rw [hdel] at hev
    exact h3 ev hev
  · intro k e hget hgt
    rw [hess] at hget
    exact h4 k e hget hgt

theorem GameWorld.checkEssenceRespawn_freshInv {c : ℕ} {qt : Quadtree} {w : GameWorld}
    (h : GameWorld.FreshInv c qt w) : GameWorld.FreshInv c qt w.checkEssenceRespawn := by
  unfold GameWorld.checkEssenceRespawn
  split
  · exact foldl_pred_mem (GameWorld.FreshInv c qt) (fun _ => True)
      (fun w2 _ => (w2.spawnEssenceRand).1)
      (fun w2 _ _ hP => GameWorld.spawnEssenceRand_freshInv hP)
      _ (fun _ _ => trivial) w h
  · exact h

theorem GameWorld.playerTick_event_old (c : ℕ) (dt : ℝ) (p : Player) (ev : Event)
    (h : (GameWorld.playerTick dt p).2 = some ev) : Event.CollectedOld c ev := by
  simp only [GameWorld.playerTick] at h
  split at h
  · injection h with hh
    rw [← hh]
    trivial
  · exact Option.noConfusion h

/-- C9: an essence spawned during tick N (collection replacement or
population maintenance, the only in-tick spawns) is neither attracted nor
collected in that same tick.  Hypotheses: every id stored in the (stale)
spatial index, and every essence id in the store, is at most the pre-tick
id counter — invariants of reachable states, since ids come from the
monotone allocator and the index is rebuilt from the stores.  Conclusions:
every `essenceCollected` event of the tick names a pre-existing essence
id (fresh ids are never collected), and every essence whose id exceeds
the pre-tick counter ends the tick with its initial zero velocity (fresh
essences are never pulled by the attraction pass). -/
theorem C9_fresh_essence_not_touched_same_tick (w : GameWorld) (dt : ℝ)
    (hq : ∀ i ∈ w.quadtree.storedIds, i ≤ w.entityIdCounter)
    (he : ∀ eid e, listGet w.essences eid = some e → eid ≤ w.entityIdCounter) :
    (∀ pid eid cnt,
      Event.essenceCollected pid eid cnt ∈ (GameWorld.update dt w).deltaUpdates →
      eid ≤ w.entityIdCounter) ∧
    (∀ eid e, listGet ((GameWorld.update dt w).essences) eid = some e →
      w.entityIdCounter < eid → e.velocity = ⟨0, 0⟩) := by
  have h4 : GameWorld.FreshInv w.entityIdCounter w.quadtree
      (((({ w with tick := w.tick + 1, deltaUpdates := [] } : GameWorld).playersPhase
        dt).npcsPhase dt).essencesPhase dt) := by
    refine ⟨rfl, le_refl _, ?_, ?_⟩
    · intro ev hev
      have hev' : ev ∈ List.filterMap (fun kv => (GameWorld.playerTick dt kv.2).2)
        w.players := hev
      rw [List.mem_filterMap] at hev'
      obtain ⟨kv, _, hkv⟩ := hev'
      exact GameWorld.playerTick_event_old w.entityIdCounter dt kv.2 ev hkv
    · intro eid e hget hgt
      have hget' : listGet (w.essences.map (fun kv => (kv.1, Essence.update dt kv.2))) eid
          = some e := hget
      rw [listGet_map_value] at hget'
      rcases h0 : listGet w.essences eid with _ | e0
      · rw [h0] at hget'
        exact Option.noConfusion hget'
      · exact absurd (he eid e0 h0) (not_le.mpr hgt)
  have h5 := GameWorld.updateEssenceAttraction_freshInv hq h4
  have h6 := GameWorld.handleCollisions_freshInv h5
  have h7 := GameWorld.checkEssenceRespawn_freshInv h6
  have hupd : GameWorld.update dt w =
      ((((((({ w with tick := w.tick + 1, deltaUpdates := [] } : GameWorld).playersPhase
        dt).npcsPhase dt).essencesPhase
        dt).updateEssenceAttraction).handleCollisions).checkEssenceRespawn).rebuildQuadtree :=
    rfl
  constructor
  · intro pid eid cnt hmem
    rw [hupd, GameWorld.rebuildQuadtree_deltas] at hmem
    exact h7.2.2.1 _ hmem
  · intro eid e hget hgt
    rw [hupd, GameWorld.rebuildQuadtree_essences] at hget
    exact h7.2.2.2 eid e hget hgt

/-- Witness for C9 at the concrete world `cw`. -/
theorem C9_fresh_essence_not_touched_same_tick_witness :
    (∀ i ∈ cw.quadtree.storedIds, i ≤ cw.entityIdCounter) ∧
    (∀ eid e, listGet cw.essences eid = some e → eid ≤ cw.entityIdCounter) ∧
    ((∀ pid eid cnt,
      Event.essenceCollected pid eid cnt ∈ (GameWorld.update 1 cw).deltaUpdates →
      eid ≤ cw.entityIdCounter) ∧
    (∀ eid e, listGet ((GameWorld.update 1 cw).essences) eid = some e →
      cw.entityIdCounter < eid → e.velocity = ⟨0, 0⟩)) := by
  have h1 : ∀ i ∈ cw.quadtree.storedIds, i ≤ cw.entityIdCounter := by
    intro i hi
    have hi' : i ∈ [1, 2] := hi
    fin_cases hi' <;> decide
  have h2 : ∀ eid e, listGet cw.essences eid = some e → eid ≤ cw.entityIdCounter := by
    intro eid e hg
    have hg' : (if 2 = eid then some cwEssence else none) = some e := hg
    by_cases hk : 2 = eid
    · rw [← hk]
      decide
    · rw [if_neg hk] at hg'
      exact Option.noConfusion hg'
  exact ⟨h1, h2, C9_fresh_essence_not_touched_same_tick cw 1 h1 h2⟩

/-! ## Claim C10 -/

theorem listGet_append_some {V : Type _} (l l2 : List (ℕ × V)) (k : ℕ) (v : V)
    (h : listGet l k = some v) : listGet (l ++ l2) k = some v := by
  induction l with
  | nil => exact Option.noConfusion h
  | cons kv rest ih =>
    by_cases hk : kv.1 = k
    · simp only [List.cons_append, listGet, if_pos hk] at h ⊢
      exact h
    · simp only [List.cons_append, listGet, if_neg hk] at h ⊢
      exact ih h

/-- One full tick only grows each player's collected-essence list: the
per-player update leaves it alone, the attraction pass appends, the
collision pass moves positions only, and the respawn/rebuild legs do not
touch players. -/
theorem GameWorld.update_players_essGrew (dt : ℝ) (w : GameWorld) :
    List.Forall₂ (keyedRel Player.EssGrew) w.players ((GameWorld.update dt w).players) := by
  rw [GameWorld.update_players_eq]
  have g1 : List.Forall₂ (keyedRel Player.EssGrew) w.players
      ((({ w with tick := w.tick + 1, deltaUpdates := [] } : GameWorld).playersPhase
        dt).players) :=
    (forall2_keyed_map (fun p0 => (GameWorld.playerTick dt p0).1) w.players).imp
      (fun _ _ hab => ⟨hab.1, [],
        by rw [hab.2, playerStep_essences, List.append_nil]⟩)
  have g2 : List.Forall₂ (keyedRel Player.EssGrew)
      ((({ w with tick := w.tick + 1, deltaUpdates := [] } : GameWorld).playersPhase
        dt).players)
      ((((({ w with tick := w.tick + 1, deltaUpdates := [] } : GameWorld).playersPhase
        dt).npcsPhase dt).essencesPhase dt).updateEssenceAttraction).players :=
    (GameWorld.updateEssenceAttraction_players
      (((({ w with tick := w.tick + 1, deltaUpdates := [] } : GameWorld).playersPhase
        dt).npcsPhase dt).essencesPhase dt)).imp
      (fun _ _ hab => ⟨hab.1, Player.SameExceptEss.essGrewOfEss hab.2⟩)
  have g3 : List.Forall₂ (keyedRel Player.EssGrew)
      ((((({ w with tick := w.tick + 1, deltaUpdates := [] } : GameWorld).playersPhase
        dt).npcsPhase dt).essencesPhase dt).updateEssenceAttraction).players
      (((((({ w with tick := w.tick + 1, deltaUpdates := [] } : GameWorld).playersPhase
        dt).npcsPhase dt).essencesPhase dt).updateEssenceAttraction).handleCollisions).players :=
    ((GameWorld.handleCollisions_posOnly _).1).imp
      (fun _ _ hab => ⟨hab.1, Player.SameExceptPos.essGrewOfPos hab.2⟩)
  exact @forall2_keyed_trans _ Player.EssGrew
    (fun _ _ _ u v => Player.EssGrew.transGrew u v) _ _ _ g1
    (@forall2_keyed_trans _ Player.EssGrew
      (fun _ _ _ u v => Player.EssGrew.transGrew u v) _ _ _ g2 g3)

/-- C10: a player's collected-essence list is monotonically non-decreasing
across every core operation — a tick (`update`) and input processing
either leave it unchanged or append to it, `addPlayer` (with a fresh id,
as the monotone allocator guarantees) and removal of a *different* player
leave every other player's entry intact, and the spawn operations do not
touch players at all.  No operation removes a collected essence. -/
theorem C10_essence_count_monotone (w : GameWorld) (dt : ℝ) (pid : ℕ) (p : Player)
    (keys : List String) (x y : ℝ) (pid2 : ℕ) (cid pname : String)
    (hp : listGet w.players pid = some p) :
    (∃ q, listGet ((GameWorld.update dt w).players) pid = some q ∧ Player.EssGrew p q) ∧
    (∃ q, listGet ((w.processPlayerInput pid2 keys).players) pid = some q ∧
      Player.EssGrew p q) ∧
    (listGet w.players (w.entityIdCounter + 1) = none →
      ∃ q, listGet (((w.addPlayer cid pname).1).players) pid = some q ∧
        Player.EssGrew p q) ∧
    (pid ≠ pid2 →
      ∃ q, listGet ((w.removePlayer pid2).players) pid = some q ∧ Player.EssGrew p q) ∧
    ((w.spawnEssence x y).1).players = w.players ∧
    ((w.spawnNPC x y).1).players = w.players ∧
    ((w.spawnEssenceRand).1).players = w.players := by
  refine ⟨?_, ?_, ?_, ?_, rfl, rfl, rfl⟩
  · have g := forall2_keyed_get (GameWorld.update_players_essGrew dt w) pid
    rw [hp] at g
    exact OptRel.some_left g
  · rcases hc : listGet w.players pid2 with _ | p0 <;>
      simp only [GameWorld.processPlayerInput, hc]
    · exact ⟨p, hp, Player.EssGrew.reflGrew p⟩
    · by_cases hpp : pid = pid2
      · subst hpp
        refine ⟨Player.updateVelocity keys p, ?_, [], by rw [List.append_nil]; rfl⟩
        rw [listGet_listUpdate_self, hp]
        rfl
      · exact ⟨p, by rw [listGet_listUpdate_ne _ _ hpp]; exact hp,
          Player.EssGrew.reflGrew p⟩
  · intro habs
    have hpl := listSet_of_absent w.players (w.entityIdCounter + 1)
      (Player.init (w.entityIdCounter + 1) pname cid (WORLD_W / 2) (WORLD_H / 2)) habs
    refine ⟨p, ?_, Player.EssGrew.reflGrew p⟩
    show listGet (listSet w.players (w.entityIdCounter + 1) _) pid = some p
    rw [hpl]
    exact listGet_append_some _ _ _ _ hp
  · intro hne
    rcases hr : listGet w.players pid2 with _ | p0 <;>
      simp only [GameWorld.removePlayer, hr]
    · exact ⟨p, hp, Player.EssGrew.reflGrew p⟩
    · exact ⟨p, by rw [listGet_listDelete_ne _ hne]; exact hp, Player.EssGrew.reflGrew p⟩

/-- Witness for C10 at the concrete world `cw`. -/
theorem C10_essence_count_monotone_witness :
    listGet cw.players 1 = some cwPlayer ∧
    ((∃ q, listGet ((GameWorld.update 1 cw).players) 1 = some q ∧
      Player.EssGrew cwPlayer q) ∧
    (∃ q, listGet ((cw.processPlayerInput 7 ["w"]).players) 1 = some q ∧
      Player.EssGrew cwPlayer q) ∧
    (listGet cw.players (cw.entityIdCounter + 1) = none →
      ∃ q, listGet (((cw.addPlayer "c2" "p2").1).players) 1 = some q ∧
        Player.EssGrew cwPlayer q) ∧
    (1 ≠ 7 →
      ∃ q, listGet ((cw.removePlayer 7).players) 1 = some q ∧
        Player.EssGrew cwPlayer q) ∧
    ((cw.spawnEssence 5 6).1).players = cw.players ∧
    ((cw.spawnNPC 5 6).1).players = cw.players ∧
    ((cw.spawnEssenceRand).1).players = cw.players) := by
  have h1 : listGet cw.players 1 = some cwPlayer := by
    simp [cw, listGet]
  exact ⟨h1, C10_essence_count_monotone cw 1 1 cwPlayer ["w"] 5 6 7 "c2" "p2" h1⟩

end

end Sim
